import Mathlib

/-!
A verification development for the popsicle CI orchestration engine.

The Python sources are embedded shallowly:

* `src/popsicle/pipelines/config_parser.py` — the declarative document is
  modelled by the inductive `Yaml` (the value returned by `yaml.safe_load`);
  Python dictionaries are modelled as association lists built with
  Python-dict assignment semantics (`dictInsert`: first-occurrence position,
  last value).  File-system access and YAML text decoding are I/O and sit
  outside the model: `load_pipeline_config` here starts from the decoded
  document and takes the default workflow name (derived in Python from the
  file stem) as a parameter.
* `src/popsicle/runner/__init__.py` — the Docker invocation is an external
  effect, modelled as a function argument giving the container outcome.
* `src/fmg/orchestrator/__init__.py` together with the persistence contract
  of `src/popsicle/storage/sqlite.py` — the store is a pure record of rows;
  wall-clock timestamps are omitted.  Python exceptions raised by a runner
  are modelled with `Except`.

Error messages are carried by the structured type `ConfigError`; every
constructor corresponds to Python raising `PipelineConfigError`.
-/

/-- A decoded YAML document (the result of `yaml.safe_load`).  Mappings are
association lists with string keys; documents produced by the YAML decoder
are Python dicts, hence have pairwise distinct keys, but no definition below
relies on that. -/
inductive Yaml where
  | null
  | bool (b : Bool)
  | num (n : Int)
  | str (s : String)
  | list (items : List Yaml)
  | map (entries : List (String × Yaml))

/-- `d.get(k)` on a Python dict: the value bound to `k`, if any. -/
def alistGet? (entries : List (String × Yaml)) (k : String) : Option Yaml :=
  (entries.find? (fun e => e.1 == k)).map (fun e => e.2)

/-- `d[k] = v` on a Python dict: replace the value at an existing key in
place, otherwise append the new binding. -/
def dictInsert {α : Type} (d : List (String × α)) (k : String) (v : α) :
    List (String × α) :=
  if d.any (fun e => e.1 == k) then
    d.map (fun e => if e.1 == k then (k, v) else e)
  else d ++ [(k, v)]

/-- `dependencies[job] = requires` where the key is known to exist:
update the binding in place. -/
def dictUpdate {α : Type} (d : List (String × α)) (k : String) (v : α) :
    List (String × α) :=
  d.map (fun e => if e.1 == k then (k, v) else e)

/-- The key set of a dict comprehension `{x: f(x) for x in l}`: duplicates
collapse onto their first occurrence. -/
def pyDedupAux : List String → List String → List String
  | _, [] => []
  | seen, x :: xs =>
      if seen.contains x then pyDedupAux seen xs
      else x :: pyDedupAux (x :: seen) xs

/-- Deduplicate a list keeping first occurrences, as Python dict keys do. -/
def pyDedup (l : List String) : List String := pyDedupAux [] l

/-- Python `str.strip()` (ASCII whitespace), written on the character list
so that it computes definitionally (`String.trim` does not reduce in the
kernel). -/
def pyStrip (s : String) : String :=
  ⟨((s.data.dropWhile Char.isWhitespace).reverse.dropWhile Char.isWhitespace).reverse⟩

/-- Python `str.endswith`, written on the character list so that it computes
definitionally. -/
def pyEndsWith (s suffix : String) : Bool :=
  suffix.data.isSuffixOf s.data

/-- `PipelineConfigError`: every constructor corresponds to Python raising
this exception.  `stuckJobs` is the circular-or-unsatisfied-dependencies
error of `_topological_sort`; it carries the remaining jobs with their
declared dependency sets, which the Python code formats into the message. -/
inductive ConfigError where
  | generic (msg : String)
  | stuckJobs (remaining : List (String × List String))
  deriving Repr, DecidableEq

/-- `StepSpec` from `config_parser.py`. -/
structure StepSpec where
  kind : String
  command : Option String := none
  deriving Repr, DecidableEq

/-- `JobSpec` from `config_parser.py`. -/
structure JobSpec where
  name : String
  image : String
  steps : List StepSpec
  deriving Repr, DecidableEq

/-- `PipelineConfig` from `config_parser.py`.  The `config_path` field is a
file-system path and is outside the model. -/
structure PipelineConfig where
  name : String
  jobs : List (String × JobSpec)
  job_order : List String
  dependencies : List (String × List String)
  deriving Repr, DecidableEq

/-- `_parse_simple_step`. -/
def parse_simple_step (step_name : String) : Except ConfigError StepSpec :=
  let normalized := pyStrip step_name
  if normalized = "checkout" then .ok { kind := "checkout" }
  else .error (.generic ("Unsupported step " ++ normalized))

/-- `_parse_mapping_step`. -/
def parse_mapping_step (step_mapping : List (String × Yaml)) :
    Except ConfigError StepSpec :=
  match step_mapping with
  | [(step_type, value)] =>
      if step_type = "run" then
        match value with
        | .str command => .ok { kind := "run", command := some command }
        | .map m =>
            match alistGet? m "command" with
            | some (.str command) => .ok { kind := "run", command := some command }
            | _ => .error (.generic "Run step must define a command")
        | _ => .error (.generic "Run step must define a command")
      else .error (.generic ("Unsupported step type " ++ step_type))
  | _ => .error (.generic "Unsupported step mapping")

/-- The step loop of `load_pipeline_config`: parse each raw step, failing at
the first invalid one. -/
def parseSteps (job_name : String) (steps : List Yaml) :
    Except ConfigError (List StepSpec) :=
  steps.mapM (fun raw_step =>
    match raw_step with
    | .str s => parse_simple_step s
    | .map m => parse_mapping_step m
    | _ => .error (.generic ("Unsupported step format in job " ++ job_name)))

/-- The per-job validation of `load_pipeline_config`: docker image list,
first image mapping, image string, non-empty step list. -/
def parseJob (job_name : String) (job_body : Yaml) :
    Except ConfigError JobSpec :=
  match job_body with
  | .map body =>
      match alistGet? body "docker" with
      | some (.list docker_images) =>
          match docker_images with
          | [] => .error (.generic ("Job must declare at least one docker image: " ++ job_name))
          | first_image :: _ =>
              match first_image with
              | .map fi =>
                  match alistGet? fi "image" with
                  | some (.str image) =>
                      match alistGet? body "steps" with
                      | some (.list steps_section) =>
                          if steps_section.isEmpty then
                            .error (.generic ("Job must define at least one step: " ++ job_name))
                          else do
                            let steps ← parseSteps job_name steps_section
                            pure { name := job_name, image := image, steps := steps }
                      | _ => .error (.generic ("Job must define at least one step: " ++ job_name))
                  | some _ => .error (.generic ("Job docker image value must be a string: " ++ job_name))
                  | none => .error (.generic ("Job docker definition must include an image: " ++ job_name))
              | _ => .error (.generic ("Job docker definition must include an image: " ++ job_name))
      | _ => .error (.generic ("Job must declare at least one docker image: " ++ job_name))
  | _ => .error (.generic ("Job must be a mapping: " ++ job_name))

/-- The jobs loop of `load_pipeline_config`: build the `jobs` dict in
iteration order. -/
def parseJobs (entries : List (String × Yaml)) :
    Except ConfigError (List (String × JobSpec)) :=
  entries.foldlM (fun acc p => do
    let spec ← parseJob p.1 p.2
    pure (dictInsert acc p.1 spec)) []

/-- The `requires` extraction inside `_extract_workflow_details`:
a missing or `None` value defaults to the empty list; anything but a list of
strings is rejected. -/
def parseRequires (job_name : String) (payload : List (String × Yaml)) :
    Except ConfigError (List String) :=
  match alistGet? payload "requires" with
  | none => .ok []
  | some .null => .ok []
  | some (.list items) =>
      items.mapM (fun item =>
        match item with
        | .str dep => .ok dep
        | _ => .error (.generic ("Workflow job has invalid requires list: " ++ job_name)))
  | some _ => .error (.generic ("Workflow job has invalid requires list: " ++ job_name))

/-- One entry of the workflow jobs list: a bare job name, or a single-key
mapping carrying a `requires` payload. -/
def parseWorkflowEntry (entry : Yaml) :
    Except ConfigError (String × List String) :=
  match entry with
  | .str job_name => .ok (job_name, [])
  | .map [(job_name, payload)] =>
      match payload with
      | .map p => do
          let requires ← parseRequires job_name p
          pure (job_name, requires)
      | _ => .error (.generic ("Workflow job must use a mapping configuration: " ++ job_name))
  | _ => .error (.generic "Unsupported workflow job declaration")

/-- `_extract_workflow_details`: dependencies start empty for every declared
job; the first non-`version` workflow block, when present, names the
workflow and assigns each listed job its `requires` list.  A listed job that
is not declared is rejected. -/
def extract_workflow_details (data : List (String × Yaml))
    (job_names : List String) (default_name : String) :
    Except ConfigError (String × List (String × List String)) :=
  let dependencies : List (String × List String) :=
    job_names.map (fun j => (j, []))
  match alistGet? data "workflows" with
  | some (.map workflows_section) =>
      match workflows_section.find? (fun e => !(e.1 == "version")) with
      | none => .ok (default_name, dependencies)
      | some (workflow_name, workflow_def) =>
          match workflow_def with
          | .map wf =>
              match alistGet? wf "jobs" with
              | some (.list jobs_list) =>
                  if jobs_list.isEmpty then
                    .error (.generic "Workflow must define a non-empty jobs list")
                  else do
                    let deps ← jobs_list.foldlM (fun deps entry => do
                      let (job_name, requires) ← parseWorkflowEntry entry
                      if (deps.map Prod.fst).contains job_name then
                        pure (dictUpdate deps job_name requires)
                      else
                        Except.error (.generic ("Workflow references unknown job: " ++ job_name)))
                      dependencies
                    pure (workflow_name, deps)
              | _ => .error (.generic "Workflow must define a non-empty jobs list")
          | _ => .error (.generic "Workflow definition must be a mapping")
  | _ => .ok (default_name, dependencies)

/-- `dependencies.get(job, [])`. -/
def depsGetD (dependencies : List (String × List String)) (k : String) :
    List String :=
  ((dependencies.find? (fun e => e.1 == k)).map (fun e => e.2)).getD []

/-- The `while remaining` loop of `_topological_sort`: collect every job
whose whole dependency set is already resolved, append those in iteration
order, and drop them from `remaining`; fail when no job is ready while some
remain.  Each iteration of the Python `while` loop removes at least one job,
so the loop runs at most `remaining.length` times; `fuel` bounds the
iteration count to make the recursion structural, and is never exhausted
when `remaining.length <= fuel` (`topoLoop_fuel_irrelevant` below). -/
def topoLoop : Nat → List (String × List String) → List String →
    Except ConfigError (List String)
  | _, [], resolved => .ok resolved
  | 0, remaining, _ => .error (.stuckJobs remaining)
  | fuel + 1, jd0 :: rest, resolved =>
      let remaining := jd0 :: rest
      let ready := remaining.filter (fun jd => jd.2.all (fun d => resolved.contains d))
      if ready = [] then .error (.stuckJobs remaining)
      else
        topoLoop fuel
          (remaining.filter (fun jd => !((ready.map Prod.fst).contains jd.1)))
          (resolved ++ ready.map Prod.fst)

/-- `_topological_sort`: `remaining` starts as the dict comprehension over
`job_names` (duplicates collapse), each job bound to its declared
dependency set. -/
def topological_sort (job_names : List String)
    (dependencies : List (String × List String)) :
    Except ConfigError (List String) :=
  let remaining := (pyDedup job_names).map (fun j => (j, depsGetD dependencies j))
  topoLoop remaining.length remaining []

/-- `load_pipeline_config`, starting from the decoded document.
`default_name` stands for `resolved_relative.stem or "pipeline"`. -/
def load_pipeline_config (data : Yaml) (default_name : String) :
    Except ConfigError PipelineConfig :=
  match data with
  | .map doc =>
      match alistGet? doc "jobs" with
      | some (.map jobs_section) =>
          if jobs_section.isEmpty then
            .error (.generic "Pipeline configuration must define at least one job")
          else do
            let jobs ← parseJobs jobs_section
            let (workflow_name, dependencies) ←
              extract_workflow_details doc (jobs.map Prod.fst) default_name
            let job_order ← topological_sort (jobs.map Prod.fst) dependencies
            pure { name := workflow_name, jobs := jobs,
                   job_order := job_order, dependencies := dependencies }
      | _ => .error (.generic "Pipeline configuration must define at least one job")
  | _ => .error (.generic "Pipeline configuration must be a mapping")

/-! ## Runner (`src/popsicle/runner/__init__.py`) -/

/-- `RunnerResult` from `runner/__init__.py`. -/
structure RunnerResult where
  success : Bool
  output : String
  return_code : Option Int := none
  deriving Repr, DecidableEq

/-- The two `except` branches around `subprocess.run`: the docker binary is
missing, or the invocation faulted in some other way. -/
inductive DockerExc where
  | fileNotFound (msg : String)
  | other (msg : String)
  deriving Repr, DecidableEq

/-- What `subprocess.run` produced: return code, stdout, stderr. -/
structure ContainerCompleted where
  returncode : Int
  stdout : String
  stderr : String
  deriving Repr, DecidableEq

/-- The step loop of `DockerRunner.run`: checkout steps only log, run steps
are stripped and collected; an unsupported step kind or an empty command
aborts with a failure result before any container starts. -/
def dockerStepLoop (job_name : String) :
    List StepSpec → List String → List String →
    Except RunnerResult (List String × List String)
  | [], logs, run_commands => .ok (logs, run_commands)
  | step :: rest, logs, run_commands =>
      if step.kind = "checkout" then
        dockerStepLoop job_name rest
          (logs ++ ["[checkout] repository mounted into container\n"]) run_commands
      else if step.kind ≠ "run" then
        .error { success := false,
                 output := String.join (logs ++
                   ["Unsupported step " ++ step.kind ++ " in job " ++ job_name ++ "\n"]) }
      else
        let command := pyStrip (step.command.getD "")
        if command = "" then
          .error { success := false,
                   output := String.join (logs ++
                     ["Run step missing command in job " ++ job_name ++ "\n"]) }
        else
          dockerStepLoop job_name rest
            (logs ++ ["$ " ++ command ++ "\n"]) (run_commands ++ [command])

/-- The single shell command handed to `sh -c`: the collected run commands
joined with logical AND, or the trivial no-op when there are none. -/
def combinedCommand (run_commands : List String) : String :=
  if run_commands.isEmpty then "true"
  else " && ".intercalate run_commands

/-- The `docker run` argument vector built by `DockerRunner.run`. -/
def docker_command (docker_binary : String) (platform : Option String)
    (workspace_path : String) (image : String) (combined : String) :
    List String :=
  [docker_binary, "run", "--rm",
   "-v", workspace_path ++ ":/workspace",
   "-w", "/workspace"]
  ++ (match platform with
      | some p => ["--platform", p]
      | none => [])
  ++ [image, "sh", "-c", combined]

/-- Constructor arguments of `DockerRunner`. -/
structure DockerRunner where
  docker_binary : String := "docker"
  platform : Option String := none
  deriving Repr, DecidableEq

/-- The tail of `DockerRunner.run` after `subprocess.run`: convert the
container outcome (or the fault it raised) into a `RunnerResult`, appending
stdout/stderr and the exit-code line to the log. -/
def finishDockerRun (logs : List String)
    (outcome : Except DockerExc ContainerCompleted) : RunnerResult :=
  match outcome with
  | .error (.fileNotFound exc) =>
      { success := false,
        output := String.join (logs ++ ["Docker binary not found: " ++ exc ++ "\n"]) }
  | .error (.other exc) =>
      { success := false,
        output := String.join (logs ++ ["Docker execution raised: " ++ exc ++ "\n"]) }
  | .ok completed =>
      let logs := logs ++
        (if completed.stdout ≠ "" then
          [if pyEndsWith completed.stdout "\n" then completed.stdout
           else completed.stdout ++ "\n"]
         else [])
      let logs := logs ++
        (if completed.stderr ≠ "" then
          [if pyEndsWith completed.stderr "\n" then completed.stderr
           else completed.stderr ++ "\n"]
         else [])
      let success := completed.returncode == 0
      let logs := if success then logs
        else logs ++ ["Command exited with code " ++ toString completed.returncode ++ "\n"]
      { success := success,
        output := String.join logs,
        return_code := some completed.returncode }

/-- `DockerRunner.run`.  The container engine is external: `exec` maps the
full argument vector to the completed process or a raised fault. -/
def DockerRunner.run (r : DockerRunner) (job : JobSpec) (workspace_path : String)
    (exec : List String → Except DockerExc ContainerCompleted) : RunnerResult :=
  let logs := ["[job] " ++ job.name ++ "\n", "[image] " ++ job.image ++ "\n"]
  match dockerStepLoop job.name job.steps logs [] with
  | .error result => result
  | .ok (logs, run_commands) =>
      let combined := combinedCommand run_commands
      let logs := if run_commands.isEmpty then
          logs ++ ["[runner] no run steps defined; executing no-op\n"]
        else logs
      finishDockerRun logs
        (exec (docker_command r.docker_binary r.platform workspace_path job.image combined))

/-! ## Persistence contract (`src/popsicle/storage/sqlite.py`)

Rows keep only the fields the orchestration claims touch; wall-clock
timestamps (`start_time`/`end_time`) and `config_path` are omitted. -/

/-- A row of the `pipelines` table. -/
structure PipelineRow where
  id : Nat
  repo : String
  commit_sha : String
  branch : String
  workflow_name : String
  status : String
  deriving Repr, DecidableEq

/-- A row of the `jobs` table. -/
structure JobRow where
  id : Nat
  pipeline_id : Nat
  job_name : String
  status : String
  log : Option String := none
  deriving Repr, DecidableEq

/-- The SQLite database: rows plus the AUTOINCREMENT counters (ids are
assigned in insertion order, so lists hold rows in id order). -/
structure Store where
  pipelines : List PipelineRow
  jobs : List JobRow
  next_pipeline_id : Nat := 1
  next_job_id : Nat := 1
  deriving Repr, DecidableEq

/-- The freshly initialised database. -/
def Store.empty : Store := { pipelines := [], jobs := [] }

/-- `SQLiteStore.get_pipeline`. -/
def Store.get_pipeline (s : Store) (pipeline_id : Nat) : Option PipelineRow :=
  s.pipelines.find? (fun r => r.id == pipeline_id)

/-- `SQLiteStore.create_pipeline` (status defaults to pending). -/
def Store.create_pipeline (s : Store) (repo commit_sha branch workflow_name : String)
    (status : String := "pending") : Nat × Store :=
  (s.next_pipeline_id,
   { s with
     pipelines := s.pipelines ++
       [{ id := s.next_pipeline_id, repo := repo, commit_sha := commit_sha,
          branch := branch, workflow_name := workflow_name, status := status }],
     next_pipeline_id := s.next_pipeline_id + 1 })

/-- `SQLiteStore.update_pipeline_status`. -/
def Store.update_pipeline_status (s : Store) (pipeline_id : Nat) (status : String) :
    Store :=
  { s with pipelines :=
      s.pipelines.map (fun r =>
        if r.id == pipeline_id then { r with status := status } else r) }

/-- `SQLiteStore.create_job` (status defaults to pending, no log). -/
def Store.create_job (s : Store) (pipeline_id : Nat) (job_name : String)
    (status : String := "pending") : Nat × Store :=
  (s.next_job_id,
   { s with
     jobs := s.jobs ++
       [{ id := s.next_job_id, pipeline_id := pipeline_id,
          job_name := job_name, status := status }],
     next_job_id := s.next_job_id + 1 })

/-- `SQLiteStore.update_job_status`. -/
def Store.update_job_status (s : Store) (job_id : Nat) (status : String) : Store :=
  { s with jobs :=
      s.jobs.map (fun r =>
        if r.id == job_id then { r with status := status } else r) }

/-- `SQLiteStore.set_job_log`. -/
def Store.set_job_log (s : Store) (job_id : Nat) (log : String) : Store :=
  { s with jobs :=
      s.jobs.map (fun r =>
        if r.id == job_id then { r with log := some log } else r) }

/-- `SQLiteStore.get_jobs_for_pipeline` (`ORDER BY id`; rows are stored in
insertion = id order). -/
def Store.get_jobs_for_pipeline (s : Store) (pipeline_id : Nat) : List JobRow :=
  s.jobs.filter (fun r => r.pipeline_id == pipeline_id)

/-! ## Orchestrator (`src/fmg/orchestrator/__init__.py`)

`run_pipeline` is a pure state transformer on `Store`; alongside the new
store it returns the observable events of the run: each
`update_pipeline_status` call on the pipeline record and each attempted
status-observer notification (`_report_status` swallows notifier failures,
so notifying cannot alter the store).  Workspace cleanup
(`_cleanup_workspace`) touches only the file system and is outside the
model.  A runner that raises is an `Except.error` carrying the message
interpolated into the synthetic log. -/

/-- An observable effect of a pipeline run. -/
inductive Event where
  | pipelineCreated (pipeline_id : Nat) (status : String)
  | pipelineStatus (pipeline_id : Nat) (status : String)
  | notify (state : String) (repo : String) (commit_sha : String)
      (pipeline_id : Nat) (description : String)
  deriving Repr, DecidableEq

/-- `job_ids[job_name]` (in every reachable call the key is present; `0`
stands in for Python's `KeyError`, which cannot fire because
`_ensure_job_records` covered the order). -/
def idOf (job_ids : List (String × Nat)) (job_name : String) : Nat :=
  ((job_ids.find? (fun e => e.1 == job_name)).map (fun e => e.2)).getD 0

/-- `config.jobs[job_name]` (a `KeyError` stand-in as in `idOf`). -/
def jobSpecOf (config : PipelineConfig) (job_name : String) : JobSpec :=
  ((config.jobs.find? (fun e => e.1 == job_name)).map (fun e => e.2)).getD
    { name := job_name, image := "", steps := [] }

/-- The creation loop of `_ensure_job_records`: walk the requested job
names, creating a pending row for each name not yet bound in the dict. -/
def ensureLoop (pipeline_id : Nat) :
    List String → List (String × Nat) → Store → List (String × Nat) × Store
  | [], acc, s => (acc, s)
  | job_name :: rest, acc, s =>
      if (acc.map Prod.fst).contains job_name then
        ensureLoop pipeline_id rest acc s
      else
        let created := s.create_job pipeline_id job_name
        ensureLoop pipeline_id rest (dictInsert acc job_name created.1) created.2

/-- `PipelineOrchestrator._ensure_job_records`: read the existing rows into
a name-to-id dict, then create a pending row for every job name not yet
present. -/
def ensure_job_records (s : Store) (pipeline_id : Nat) (job_names : List String) :
    List (String × Nat) × Store :=
  let existing := (s.get_jobs_for_pipeline pipeline_id).foldl
    (fun acc job => dictInsert acc job.job_name job.id) []
  ensureLoop pipeline_id job_names existing s

/-- `PipelineOrchestrator._execution_order`: `config.job_order or
tuple(config.jobs.keys())`. -/
def execution_order (config : PipelineConfig) : List String :=
  if config.job_order.isEmpty then config.jobs.map Prod.fst
  else config.job_order

/-- The job loop of `run_pipeline`: mark the job running, invoke the runner
(`Except.error` models a raised exception), persist log and final status;
continue on success, stop at the first failure.  Returns the store, the
completed-jobs list and the failing job, if any. -/
def run_jobs_loop (runner : JobSpec → Except String RunnerResult)
    (config : PipelineConfig) (job_ids : List (String × Nat)) :
    List String → Store → List String →
    Store × List String × Option String
  | [], s, completed => (s, completed, none)
  | job_name :: rest, s, completed =>
      let job_id := idOf job_ids job_name
      let s := s.update_job_status job_id "running"
      match runner (jobSpecOf config job_name) with
      | .error exc =>
          let s := s.set_job_log job_id ("Runner raised unexpected error: " ++ exc ++ "\n")
          let s := s.update_job_status job_id "failure"
          (s, completed, some job_name)
      | .ok result =>
          let s := s.set_job_log job_id result.output
          let s := s.update_job_status job_id
            (if result.success then "success" else "failure")
          if result.success then
            run_jobs_loop runner config job_ids rest s (completed ++ [job_name])
          else
            (s, completed, some job_name)

/-- The skip loop of `run_pipeline`: every job in the order that neither
completed nor is the failing one is marked skipped. -/
def skip_remaining_jobs (job_ids : List (String × Nat)) (order completed : List String)
    (failed_job : String) (s : Store) : Store :=
  order.foldl
    (fun st job_name =>
      if completed.contains job_name || job_name == failed_job then st
      else st.update_job_status (idOf job_ids job_name) "skipped")
    s

/-- `PipelineOrchestrator.run_pipeline`. -/
def run_pipeline (runner : JobSpec → Except String RunnerResult)
    (s : Store) (pipeline_id : Nat) (config : PipelineConfig) :
    Store × List Event :=
  match s.get_pipeline pipeline_id with
  | none => (s, [])
  | some pipeline =>
      let s := s.update_pipeline_status pipeline_id "running"
      let startEvents : List Event :=
        [.pipelineStatus pipeline_id "running",
         .notify "pending" pipeline.repo pipeline.commit_sha pipeline_id
           "Pipeline is running"]
      let order := execution_order config
      let ensured := ensure_job_records s pipeline_id order
      let job_ids := ensured.1
      let s := ensured.2
      let looped := run_jobs_loop runner config job_ids order s []
      let s := looped.1
      let completed := looped.2.1
      match looped.2.2 with
      | none =>
          let s := s.update_pipeline_status pipeline_id "success"
          (s, startEvents ++
            [.pipelineStatus pipeline_id "success",
             .notify "success" pipeline.repo pipeline.commit_sha pipeline_id
               ("Pipeline succeeded (" ++ toString order.length ++ " jobs)")])
      | some failed_job =>
          let s := skip_remaining_jobs job_ids order completed failed_job s
          let s := s.update_pipeline_status pipeline_id "failure"
          let description :=
            if failed_job = "" then "Pipeline failed"
            else "Job " ++ failed_job ++ " failed"
          (s, startEvents ++
            [.pipelineStatus pipeline_id "failure",
             .notify "failure" pipeline.repo pipeline.commit_sha pipeline_id
               description])

/-! ## Webhook configuration-failure path (`src/popsicle/webhook/app.py`)

When loading a pipeline configuration raises `PipelineConfigError`, the
webhook handler creates the pipeline record (status pending) and
immediately marks it failure; `run_pipeline` is never invoked for it. -/

/-- The `except PipelineConfigError` branch of `handle_webhook`: create the
record pending, mark it failure, report the failure. -/
def webhook_config_failure (s : Store)
    (repo commit_sha branch workflow_name : String) :
    (Nat × Store) × List Event :=
  let created := s.create_pipeline repo commit_sha branch workflow_name
  let pipeline_id := created.1
  let s := (created.2).update_pipeline_status pipeline_id "failure"
  ((pipeline_id, s),
   [.pipelineCreated pipeline_id "pending",
    .pipelineStatus pipeline_id "failure",
    .notify "failure" repo commit_sha pipeline_id
      "Pipeline configuration invalid"])

/-- The pipeline-status history a list of events records for one pipeline:
its creation status followed by every status written to its row. -/
def statusHistory (events : List Event) (pipeline_id : Nat) : List String :=
  events.filterMap (fun e =>
    match e with
    | .pipelineCreated p st => if p == pipeline_id then some st else none
    | .pipelineStatus p st => if p == pipeline_id then some st else none
    | _ => none)

/-! ## Shared concrete fixtures and helper definitions for the theorems -/

/-- A one-job document whose single run step carries the empty command
(`steps: [{run: ""}]`). -/
def emptyRunDoc : Yaml :=
  .map [("jobs", .map [("build", .map [
    ("docker", .list [.map [("image", .str "img")]]),
    ("steps", .list [.map [("run", .str "")]])])])]

/-- The initial log lines of `DockerRunner.run` for a job. -/
def dockerInitLogs (job : JobSpec) : List String :=
  ["[job] " ++ job.name ++ "\n", "[image] " ++ job.image ++ "\n"]

/-- The shell command `DockerRunner.run` hands to `sh -c` for a job, when
execution reaches the container (`none` when the step scan aborts first). -/
def dockerShellCommand (job : JobSpec) : Option String :=
  match dockerStepLoop job.name job.steps (dockerInitLogs job) [] with
  | .ok (_, run_commands) => some (combinedCommand run_commands)
  | .error _ => none

/-- Written from the claim wording, for comparison with the code: the
run-step command strings of a job exactly as they appear in the StepSpecs,
in step order. -/
def specRunCommands (steps : List StepSpec) : List String :=
  steps.filterMap (fun st =>
    if st.kind = "run" then some (st.command.getD "") else none)

/-- A runner wrapper converting every raised exception into the orchestrator's
synthetic failure result (the log written by the `except` arm of
`run_pipeline`, job marked failure). -/
def errorsAsFailures (runner : JobSpec → Except String RunnerResult) :
    JobSpec → Except String RunnerResult :=
  fun job =>
    match runner job with
    | .error exc =>
        .ok { success := false,
              output := "Runner raised unexpected error: " ++ exc ++ "\n" }
    | .ok result => .ok result

/-! ## C4 — empty run commands at the parser -/

/-- C4 counterexample: a configuration document whose single `run` step
carries the empty command string loads successfully — `load_pipeline_config`
returns a `PipelineConfig` whose StepSpec holds the empty command, instead
of failing as the claim states. -/
theorem c4_counterexample_empty_run_command_loads :
    load_pipeline_config emptyRunDoc "ci" =
      .ok { name := "ci",
            jobs := [("build", { name := "build", image := "img",
                                 steps := [{ kind := "run", command := some "" }] })],
            job_order := ["build"],
            dependencies := [("build", [])] } := rfl

/-- C4 (amended): the parser accepts a `run` step whose command is the empty
string, producing a run StepSpec carrying it; the empty command is rejected
at execution time instead — the DockerRunner reports job failure with a
descriptive log line without invoking the container engine (the result does
not depend on `exec`). -/
theorem c4_amended_empty_run_rejected_at_execution :
    parse_mapping_step [("run", .str "")] =
      .ok { kind := "run", command := some "" } ∧
    ∀ (r : DockerRunner) (ws : String)
      (exec : List String → Except DockerExc ContainerCompleted),
      DockerRunner.run r
        { name := "build", image := "img",
          steps := [{ kind := "run", command := some "" }] } ws exec =
        { success := false,
          output := "[job] build\n[image] img\nRun step missing command in job build\n" } :=
  ⟨rfl, fun _ _ _ => rfl⟩

/-! ## C5 — pipeline status transitions -/

/-- C5 counterexample: the webhook's configuration-error path
(`handle_webhook`, the `except PipelineConfigError` arm) is a reachable
operation sequence that takes a pipeline record from pending directly to
failure — its status history is `["pending", "failure"]`, never running. -/
theorem c5_counterexample_pending_directly_to_failure :
    statusHistory
      (webhook_config_failure Store.empty "octo/repo" "abc123" "main" "ci").2 1 =
      ["pending", "failure"] ∧
    "running" ∉ statusHistory
      (webhook_config_failure Store.empty "octo/repo" "abc123" "main" "ci").2 1 ∧
    ((webhook_config_failure Store.empty "octo/repo" "abc123" "main" "ci").1.2.get_pipeline 1).map
        PipelineRow.status = some "failure" :=
  ⟨rfl, by decide, rfl⟩

/-- C5 (amended): a pipeline record that enters execution (`run_pipeline`
finds it) moves running → terminal: the statuses written to it are exactly
`["running", "success"]` or `["running", "failure"]`; the exception is the
webhook's pre-execution configuration-failure path, which always moves the
freshly created record pending → failure directly. -/
theorem c5_amended_status_transitions
    (runner : JobSpec → Except String RunnerResult) (s : Store)
    (pipeline_id : Nat) (config : PipelineConfig) (pipeline : PipelineRow)
    (h : s.get_pipeline pipeline_id = some pipeline) :
    (statusHistory (run_pipeline runner s pipeline_id config).2 pipeline_id =
        ["running", "success"] ∨
     statusHistory (run_pipeline runner s pipeline_id config).2 pipeline_id =
        ["running", "failure"]) ∧
    ∀ (s₀ : Store) (repo commit_sha branch workflow_name : String),
      statusHistory
        (webhook_config_failure s₀ repo commit_sha branch workflow_name).2
        (webhook_config_failure s₀ repo commit_sha branch workflow_name).1.1 =
        ["pending", "failure"] := by
  constructor
  · simp only [run_pipeline, h]
    split
    · left
      simp [statusHistory]
    · right
      simp [statusHistory]
  · intro s₀ repo commit_sha branch workflow_name
    simp [webhook_config_failure, statusHistory]

/-! ## C6 — the shell command handed to the container -/

/-- The run commands collected by the step loop are the job's run-step
commands each passed through `str.strip()`, in step order. -/
theorem dockerStepLoop_run_commands (job_name : String) :
    ∀ (steps : List StepSpec) (logs run_commands logs2 run_commands2 : List String),
      dockerStepLoop job_name steps logs run_commands = .ok (logs2, run_commands2) →
      run_commands2 = run_commands ++ (specRunCommands steps).map pyStrip := by
  intro steps
  induction steps with
  | nil =>
      intro logs run_commands logs2 run_commands2 h
      simp only [dockerStepLoop, Except.ok.injEq, Prod.mk.injEq] at h
      simp [specRunCommands, h.2]
  | cons st rest ih =>
      intro logs run_commands logs2 run_commands2 h
      by_cases hk : st.kind = "checkout"
      · simp only [dockerStepLoop, hk, if_pos, if_true, reduceIte] at h
        have := ih _ _ _ _ h
        rw [this]
        simp [specRunCommands, hk]
      · by_cases hr : st.kind = "run"
        · by_cases hc : pyStrip (st.command.getD "") = ""
          · simp [dockerStepLoop, hk, hr, hc] at h
          · simp only [dockerStepLoop, hk, hr, hc, ite_false, ite_true,
              reduceIte, ne_eq, not_true_eq_false, not_false_eq_true,
              if_neg, if_pos] at h
            have := ih _ _ _ _ h
            rw [this]
            simp [specRunCommands, hr, List.append_assoc]
        · simp [dockerStepLoop, hk, hr] at h

/-- `finishDockerRun` reports success exactly when the container exited 0. -/
theorem finishDockerRun_success (logs : List String) (completed : ContainerCompleted) :
    (finishDockerRun logs (.ok completed)).success = (completed.returncode == 0) := rfl

/-- C6 counterexample: commands are stripped before being joined.  For a job
whose single run step is `"echo hi "` (note the trailing blank), the shell
command passed to the container is `"echo hi"`, which differs from the
claim's join of the run-step commands as written. -/
theorem c6_counterexample_commands_stripped :
    dockerShellCommand
        { name := "j", image := "img",
          steps := [{ kind := "run", command := some "echo hi " }] } =
      some "echo hi" ∧
    " && ".intercalate
        (specRunCommands [{ kind := "run", command := some "echo hi " }]) =
      "echo hi " ∧
    ("echo hi" : String) ≠ "echo hi " :=
  ⟨rfl, rfl, by decide⟩

/-- C6 (amended): for every job whose step scan reaches the container, the
single shell command passed to it is the job's run-step commands, each
stripped of surrounding whitespace, joined with `" && "` in step order; with
zero run steps the command is the no-op `"true"`; and with the container
outcome available the job is reported successful exactly when it exits 0. -/
theorem c6_amended_shell_command (r : DockerRunner) (job : JobSpec)
    (ws : String) (exec : List String → Except DockerExc ContainerCompleted)
    (logs run_commands : List String)
    (h : dockerStepLoop job.name job.steps (dockerInitLogs job) [] =
      .ok (logs, run_commands)) :
    run_commands = (specRunCommands job.steps).map pyStrip ∧
    dockerShellCommand job = some (combinedCommand run_commands) ∧
    (run_commands = [] → combinedCommand run_commands = "true") ∧
    (run_commands ≠ [] →
      combinedCommand run_commands = " && ".intercalate run_commands) ∧
    DockerRunner.run r job ws exec =
      finishDockerRun
        (if run_commands.isEmpty then
          logs ++ ["[runner] no run steps defined; executing no-op\n"]
         else logs)
        (exec (docker_command r.docker_binary r.platform ws job.image
          (combinedCommand run_commands))) := by
  have hcmds := dockerStepLoop_run_commands job.name job.steps _ _ _ _ h
  refine ⟨by simpa using hcmds, ?_, ?_, ?_, ?_⟩
  · simp [dockerShellCommand, dockerInitLogs] at h ⊢
    simp [h]
  · intro hempty; simp [combinedCommand, hempty]
  · intro hne; simp [combinedCommand, hne]
  · simp only [DockerRunner.run, dockerInitLogs] at *
    rw [h]

/-! ## C7 — a raised runner exception is handled as a normal failure -/

/-- The job loop treats a runner that raises exactly like a runner that
returns the synthetic failure result. -/
theorem run_jobs_loop_errors_as_failures
    (runner : JobSpec → Except String RunnerResult) (config : PipelineConfig)
    (job_ids : List (String × Nat)) :
    ∀ (order : List String) (s : Store) (completed : List String),
      run_jobs_loop runner config job_ids order s completed =
      run_jobs_loop (errorsAsFailures runner) config job_ids order s completed := by
  intro order
  induction order with
  | nil => intro s completed; rfl
  | cons job_name rest ih =>
      intro s completed
      simp only [run_jobs_loop]
      cases hr : runner (jobSpecOf config job_name) with
      | error exc => simp [errorsAsFailures, hr]
      | ok result =>
          by_cases hs : result.success = true
          · simp [errorsAsFailures, hr, hs, ih]
          · simp [errorsAsFailures, hr, hs]

/-- C7: a runner exception while executing a job never escapes
`run_pipeline` (which is a total function of the runner's outcomes); the
whole run proceeds exactly as if the runner had returned a failure carrying
the synthetic log, and at the failing job the loop writes that log, marks
the JobRun failure and stops iterating. -/
theorem c7_runner_exception_as_normal_failure
    (runner : JobSpec → Except String RunnerResult) (s : Store)
    (pipeline_id : Nat) (config : PipelineConfig) :
    run_pipeline runner s pipeline_id config =
      run_pipeline (errorsAsFailures runner) s pipeline_id config ∧
    ∀ (job_name : String) (rest : List String) (job_ids : List (String × Nat))
      (s₀ : Store) (completed : List String) (exc : String),
      runner (jobSpecOf config job_name) = .error exc →
      run_jobs_loop runner config job_ids (job_name :: rest) s₀ completed =
        (((s₀.update_job_status (idOf job_ids job_name) "running").set_job_log
            (idOf job_ids job_name)
            ("Runner raised unexpected error: " ++ exc ++ "\n")).update_job_status
            (idOf job_ids job_name) "failure",
         completed, some job_name) := by
  constructor
  · unfold run_pipeline
    cases s.get_pipeline pipeline_id
    · rfl
    · simp only [run_jobs_loop_errors_as_failures runner config]
  · intro job_name rest job_ids s₀ completed exc h
    simp [run_jobs_loop, h]

/-! ## Concrete fixtures for witnesses -/

/-- A single-job configuration (the `lint` example of the spec). -/
def cfgLint : PipelineConfig :=
  { name := "w",
    jobs := [("lint", { name := "lint", image := "img",
                        steps := [{ kind := "run", command := some "echo lint" }] })],
    job_order := ["lint"],
    dependencies := [("lint", [])] }

/-- A store holding one freshly created (pending) pipeline record. -/
def storeOnePipeline : Store :=
  (Store.empty.create_pipeline "octo/repo" "abc123" "main" "w").2

/-- A runner whose every job succeeds with output `ok\n`. -/
def okRunner : JobSpec → Except String RunnerResult :=
  fun _ => .ok { success := true, output := "ok\n", return_code := some 0 }

/-- A job with a checkout step and two run steps, one padded with blanks. -/
def wjob : JobSpec :=
  { name := "wj", image := "i",
    steps := [{ kind := "checkout" },
              { kind := "run", command := some " a " },
              { kind := "run", command := some "b" }] }

/-- Witness for `c5_amended_status_transitions` at a concrete store, config
and runner. -/
theorem c5_amended_status_transitions_witness :
    (statusHistory (run_pipeline okRunner storeOnePipeline 1 cfgLint).2 1 =
        ["running", "success"] ∨
     statusHistory (run_pipeline okRunner storeOnePipeline 1 cfgLint).2 1 =
        ["running", "failure"]) :=
  (c5_amended_status_transitions okRunner storeOnePipeline 1 cfgLint _ rfl).1

/-- Witness for `c6_amended_shell_command` at a concrete job: the padded
commands are stripped and joined with logical AND. -/
theorem c6_amended_shell_command_witness :
    dockerShellCommand wjob = some "a && b" :=
  ((c6_amended_shell_command {} wjob "/ws"
      (fun _ => .ok { returncode := 0, stdout := "out\n", stderr := "" })
      ["[job] wj\n", "[image] i\n",
       "[checkout] repository mounted into container\n", "$ a\n", "$ b\n"]
      ["a", "b"] rfl).2.1).trans (by rfl)

/-- A runner that raises on every job. -/
def raisingRunner : JobSpec → Except String RunnerResult :=
  fun _ => .error "kaput"

/-- Witness for `c7_runner_exception_as_normal_failure` at a concrete
raising runner: the loop writes the synthetic log, marks the job failed and
stops. -/
theorem c7_runner_exception_witness :
    run_pipeline raisingRunner storeOnePipeline 1 cfgLint =
      run_pipeline (errorsAsFailures raisingRunner) storeOnePipeline 1 cfgLint ∧
    run_jobs_loop raisingRunner cfgLint [("lint", 1)] ["lint"] storeOnePipeline [] =
      ((((storeOnePipeline.update_job_status 1 "running").set_job_log 1
          "Runner raised unexpected error: kaput\n").update_job_status 1 "failure"),
       [], some "lint") :=
  ⟨(c7_runner_exception_as_normal_failure raisingRunner storeOnePipeline 1 cfgLint).1,
   (c7_runner_exception_as_normal_failure raisingRunner storeOnePipeline 1 cfgLint).2
     "lint" [] [("lint", 1)] storeOnePipeline [] "kaput" rfl⟩

/-! ## Row-layout helpers for the orchestrator proofs -/

/-- The pending rows `_ensure_job_records` creates for `names`, ids starting
at `start`. -/
def pendRows (pipeline_id : Nat) (names : List String) (start : Nat) :
    List JobRow :=
  List.zipWith
    (fun n i => { id := i, pipeline_id := pipeline_id, job_name := n,
                  status := "pending" })
    names (List.range' start names.length)

/-- The log `run_pipeline` persists for a job: the runner's output, or the
synthetic message when the runner raised. -/
def runnerOutput (runner : JobSpec → Except String RunnerResult)
    (config : PipelineConfig) (n : String) : String :=
  match runner (jobSpecOf config n) with
  | .ok res => res.output
  | .error exc => "Runner raised unexpected error: " ++ exc ++ "\n"

/-- The rows of successfully completed jobs, ids starting at `start`. -/
def successRows (runner : JobSpec → Except String RunnerResult)
    (config : PipelineConfig) (pipeline_id : Nat) (names : List String)
    (start : Nat) : List JobRow :=
  List.zipWith
    (fun n i => { id := i, pipeline_id := pipeline_id, job_name := n,
                  status := "success",
                  log := some (runnerOutput runner config n) })
    names (List.range' start names.length)

/-- The rows of skipped jobs (log left empty), ids starting at `start`. -/
def skippedRows (pipeline_id : Nat) (names : List String) (start : Nat) :
    List JobRow :=
  List.zipWith
    (fun n i => { id := i, pipeline_id := pipeline_id, job_name := n,
                  status := "skipped" })
    names (List.range' start names.length)

theorem pendRows_nil (pipeline_id start : Nat) :
    pendRows pipeline_id [] start = [] := rfl

theorem pendRows_cons (pipeline_id : Nat) (n : String) (rest : List String)
    (start : Nat) :
    pendRows pipeline_id (n :: rest) start =
      { id := start, pipeline_id := pipeline_id, job_name := n,
        status := "pending" } :: pendRows pipeline_id rest (start + 1) := by
  simp [pendRows, List.range'_succ]

theorem mem_pendRows_le (pipeline_id : Nat) :
    ∀ (names : List String) (start : Nat) (r : JobRow),
      r ∈ pendRows pipeline_id names start → start ≤ r.id := by
  intro names
  induction names with
  | nil => intro start r h; simp [pendRows] at h
  | cons n rest ih =>
      intro start r h
      rw [pendRows_cons] at h
      rcases List.mem_cons.mp h with h | h
      · simp [h]
      · exact Nat.le_of_succ_le (ih (start + 1) r h)

/-- A dict key lookup after `dictInsert` of a fresh key. -/
theorem dictInsert_of_not_contains {α : Type} (d : List (String × α))
    (k : String) (v : α) (h : (d.map Prod.fst).contains k = false) :
    dictInsert d k v = d ++ [(k, v)] := by
  have : d.any (fun e => e.1 == k) = false := by
    induction d with
    | nil => rfl
    | cons e rest ih =>
        simp only [List.map_cons, List.contains_cons] at h
        simp only [List.any_cons, Bool.or_eq_false_iff] at *
        exact ⟨by simpa [BEq.comm] using h.1, ih h.2⟩
  simp [dictInsert, this]

/-- The `ensureLoop` result on a store without rows for the fresh names:
each requested name gets a fresh pending row, ids counting up from
`next_job_id`. -/
theorem ensureLoop_fresh (pipeline_id : Nat) :
    ∀ (names : List String) (acc : List (String × Nat)) (s : Store),
      names.Nodup →
      (∀ n ∈ names, (acc.map Prod.fst).contains n = false) →
      ensureLoop pipeline_id names acc s =
        (acc ++ names.zip (List.range' s.next_job_id names.length),
         { s with
           jobs := s.jobs ++ pendRows pipeline_id names s.next_job_id,
           next_job_id := s.next_job_id + names.length }) := by
  intro names
  induction names with
  | nil => intro acc s _ _; simp [ensureLoop, pendRows]
  | cons n rest ih =>
      intro acc s hnodup hfresh
      have hn : (acc.map Prod.fst).contains n = false := hfresh n (by simp)
      simp only [ensureLoop, hn, Bool.false_eq_true, if_false, Store.create_job]
      rw [dictInsert_of_not_contains _ _ _ hn]
      rw [ih]
      · simp [List.length_cons, List.range'_succ, List.zip_cons_cons,
          pendRows_cons, List.append_assoc]
        omega
      · exact hnodup.of_cons
      · intro m hm
        have hmne : m ≠ n := fun hEq =>
          (List.nodup_cons.mp hnodup).1 (hEq ▸ hm)
        have hacc : m ∉ acc.map Prod.fst := by
          simpa using hfresh m (List.mem_cons_of_mem n hm)
        simp [hacc, hmne]

/-- `_ensure_job_records` on a store with no rows for the pipeline: every
name gets a fresh pending row, ids counting up from `next_job_id`. -/
theorem ensure_job_records_fresh (s : Store) (pipeline_id : Nat)
    (names : List String) (hnodup : names.Nodup)
    (hempty : s.get_jobs_for_pipeline pipeline_id = []) :
    ensure_job_records s pipeline_id names =
      (names.zip (List.range' s.next_job_id names.length),
       { s with
         jobs := s.jobs ++ pendRows pipeline_id names s.next_job_id,
         next_job_id := s.next_job_id + names.length }) := by
  unfold ensure_job_records
  rw [hempty]
  simpa using ensureLoop_fresh pipeline_id names [] s hnodup (by simp)

/-- Looking a name up in the dict built by `_ensure_job_records` over fresh
rows gives the position-determined id. -/
theorem idOf_zip_range :
    ∀ (names : List String) (m : Nat), names.Nodup →
      ∀ (i : Nat) (h : i < names.length),
        idOf (names.zip (List.range' m names.length)) (names.get ⟨i, h⟩) =
          m + i := by
  intro names
  induction names with
  | nil => intro m _ i h; simp at h
  | cons n rest ih =>
      intro m hnodup i h
      cases i with
      | zero => simp [idOf, List.range'_succ]
      | succ j =>
          have hj : j < rest.length := Nat.lt_of_succ_lt_succ (by simpa using h)
          have hgetmem : rest.get ⟨j, hj⟩ ∈ rest := List.get_mem rest j hj
          have hnn : ¬((n == rest.get ⟨j, hj⟩) = true) := by
            simp only [beq_iff_eq]
            intro hEq
            exact (List.nodup_cons.mp hnodup).1 (hEq ▸ hgetmem)
          have htail := ih (m + 1) (List.nodup_cons.mp hnodup).2 j hj
          simp only [idOf] at htail
          simp only [List.length_cons, List.range'_succ, List.zip_cons_cons,
            List.get_cons_succ, idOf]
          rw [List.find?_cons_of_neg _ (by simpa using hnn), htail]
          omega

/-- Rows whose id differs from the updated one are left unchanged by a
keyed row update. -/
theorem update_map_ne (i : Nat) (f : JobRow → JobRow) :
    ∀ (l : List JobRow), (∀ r ∈ l, r.id ≠ i) →
      (l.map fun r => if r.id == i then f r else r) = l := by
  intro l
  induction l with
  | nil => intro _; rfl
  | cons r rest ih =>
      intro hl
      have hne : (r.id == i) = false := by
        simpa using hl r (by simp)
      simp only [List.map_cons, hne, Bool.false_eq_true, if_false]
      rw [ih (fun r' hr' => hl r' (by simp [hr']))]

theorem successRows_cons (runner : JobSpec → Except String RunnerResult)
    (config : PipelineConfig) (pipeline_id : Nat) (n : String)
    (rest : List String) (start : Nat) :
    successRows runner config pipeline_id (n :: rest) start =
      { id := start, pipeline_id := pipeline_id, job_name := n,
        status := "success",
        log := some (runnerOutput runner config n) } ::
        successRows runner config pipeline_id rest (start + 1) := by
  simp [successRows, List.range'_succ]

theorem skippedRows_cons (pipeline_id : Nat) (n : String)
    (rest : List String) (start : Nat) :
    skippedRows pipeline_id (n :: rest) start =
      { id := start, pipeline_id := pipeline_id, job_name := n,
        status := "skipped" } :: skippedRows pipeline_id rest (start + 1) := by
  simp [skippedRows, List.range'_succ]

/-- The three store writes `run_pipeline` makes for one job change only the
`jobs` table. -/
theorem run_ops_store_shape (s : Store) (i₁ i₂ i₃ : Nat) (st₁ st₃ out : String) :
    ((s.update_job_status i₁ st₁).set_job_log i₂ out).update_job_status i₃ st₃ =
      { s with jobs :=
          (((s.update_job_status i₁ st₁).set_job_log i₂ out).update_job_status i₃ st₃).jobs } :=
  rfl

/-- Processing the head job of the pending block: its row becomes
running, gets the log, then the final status; every other row is
untouched. -/
theorem process_head_jobs (pid m : Nat) (n : String) (tail : List String)
    (base : List JobRow) (s : Store) (st out : String)
    (hjobs : s.jobs = base ++ pendRows pid (n :: tail) m)
    (hbase : ∀ r ∈ base, r.id < m) :
    (((s.update_job_status m "running").set_job_log m out).update_job_status m st).jobs
      = base ++ ({ id := m, pipeline_id := pid, job_name := n, status := st,
                   log := some out } :: pendRows pid tail (m + 1)) := by
  have hb : ∀ r ∈ base, r.id ≠ m := fun r hr => Nat.ne_of_lt (hbase r hr)
  have ht : ∀ r ∈ pendRows pid tail (m + 1), r.id ≠ m := by
    intro r hr
    have := mem_pendRows_le pid tail (m + 1) r hr
    omega
  have hupd : ∀ (s' : Store) (i : Nat) (st' : String),
      (s'.update_job_status i st').jobs =
        s'.jobs.map (fun r => if r.id == i then { r with status := st' } else r) :=
    fun _ _ _ => rfl
  have hlog : ∀ (s' : Store) (i : Nat) (out' : String),
      (s'.set_job_log i out').jobs =
        s'.jobs.map (fun r => if r.id == i then { r with log := some out' } else r) :=
    fun _ _ _ => rfl
  have h1 : (s.update_job_status m "running").jobs =
      base ++ ({ id := m, pipeline_id := pid, job_name := n,
                 status := "running", log := none } : JobRow) ::
        pendRows pid tail (m + 1) := by
    rw [hupd, hjobs, pendRows_cons, List.map_append, List.map_cons,
      update_map_ne _ _ base hb, update_map_ne _ _ _ ht]
    simp
  have h2 : ((s.update_job_status m "running").set_job_log m out).jobs =
      base ++ ({ id := m, pipeline_id := pid, job_name := n,
                 status := "running", log := some out } : JobRow) ::
        pendRows pid tail (m + 1) := by
    rw [hlog, h1, List.map_append, List.map_cons,
      update_map_ne _ _ base hb, update_map_ne _ _ _ ht]
    simp
  rw [hupd, h2, List.map_append, List.map_cons,
    update_map_ne _ _ base hb, update_map_ne _ _ _ ht]
  simp

/-- Running the job loop over a block of succeeding jobs: each of them
ends success with the runner's log, and the loop continues into the rest
with those jobs appended to `completed`. -/
theorem run_jobs_loop_success_front
    (runner : JobSpec → Except String RunnerResult) (config : PipelineConfig)
    (job_ids : List (String × Nat)) (pid : Nat) :
    ∀ (names rest2 : List String) (base : List JobRow) (m : Nat) (s : Store)
      (completed : List String),
      s.jobs = base ++ pendRows pid (names ++ rest2) m →
      (∀ r ∈ base, r.id < m) →
      (∀ (i : Nat) (h : i < (names ++ rest2).length),
        idOf job_ids ((names ++ rest2).get ⟨i, h⟩) = m + i) →
      (∀ n ∈ names, ∃ res,
        runner (jobSpecOf config n) = .ok res ∧ res.success = true) →
      run_jobs_loop runner config job_ids (names ++ rest2) s completed =
        run_jobs_loop runner config job_ids rest2
          { s with jobs := base ++ successRows runner config pid names m ++
              pendRows pid rest2 (m + names.length) }
          (completed ++ names) := by
  intro names
  induction names with
  | nil =>
      intro rest2 base m s completed hjobs hbase hids hall
      have hj : base ++ successRows runner config pid [] m ++
          pendRows pid rest2 (m + ([] : List String).length) = s.jobs := by
        rw [hjobs]
        simp [successRows]
      rw [hj]
      simp
  | cons n names' ih =>
      intro rest2 base m s completed hjobs hbase hids hall
      obtain ⟨res, hres, hsucc⟩ := hall n (by simp)
      have hid0 : idOf job_ids n = m := by
        have := hids 0 (by simp)
        simpa using this
      have hout : res.output = runnerOutput runner config n := by
        simp [runnerOutput, hres]
      rw [List.cons_append]
      simp only [run_jobs_loop, hres, hid0, hsucc, if_true]
      rw [run_ops_store_shape,
        process_head_jobs pid m n (names' ++ rest2) base s "success" res.output
          (by simpa using hjobs) hbase]
      have happ := ih rest2
        (base ++ [{ id := m, pipeline_id := pid, job_name := n,
                    status := "success", log := some res.output }])
        (m + 1)
        { s with jobs := base ++
            ({ id := m, pipeline_id := pid, job_name := n, status := "success",
               log := some res.output } :: pendRows pid (names' ++ rest2) (m + 1)) }
        (completed ++ [n])
        (by simp)
        (by
          intro r hr
          rcases List.mem_append.mp hr with hr | hr
          · exact Nat.lt_succ_of_lt (hbase r hr)
          · simp at hr
            simp [hr])
        (by
          intro i hilt
          have := hids (i + 1) (by simpa using Nat.succ_lt_succ hilt)
          rw [show ((n :: names') ++ rest2).get ⟨i + 1, by simpa using Nat.succ_lt_succ hilt⟩ =
            (names' ++ rest2).get ⟨i, hilt⟩ from rfl] at this
          rw [this]
          omega)
        (fun nn hnn => hall nn (by simp [hnn]))
      rw [happ]
      rw [successRows_cons]
      rw [hout]
      simp only [List.append_assoc, List.cons_append, List.nil_append,
        List.singleton_append, List.length_cons]
      rw [show m + 1 + names'.length = m + (names'.length + 1) from by omega]

/-- The job loop at a failing head job: its row gets the runner's log and
status failure, the loop stops, and the pending rows behind it are left
untouched. -/
theorem run_jobs_loop_fail_head
    (runner : JobSpec → Except String RunnerResult) (config : PipelineConfig)
    (job_ids : List (String × Nat)) (pid : Nat) (K : String)
    (post : List String) (base : List JobRow) (m : Nat) (s : Store)
    (completed : List String) (res : RunnerResult)
    (hjobs : s.jobs = base ++ pendRows pid (K :: post) m)
    (hbase : ∀ r ∈ base, r.id < m)
    (hidK : idOf job_ids K = m)
    (hK : runner (jobSpecOf config K) = .ok res)
    (hfail : res.success = false) :
    run_jobs_loop runner config job_ids (K :: post) s completed =
      ({ s with jobs := base ++
          ({ id := m, pipeline_id := pid, job_name := K, status := "failure",
             log := some res.output } :: pendRows pid post (m + 1)) },
       completed, some K) := by
  simp only [run_jobs_loop, hK, hidK, hfail, Bool.false_eq_true, if_false]
  rw [run_ops_store_shape,
    process_head_jobs pid m K post base s "failure" res.output hjobs hbase]

/-- `skip_remaining_jobs` distributes over an appended order. -/
theorem skip_remaining_jobs_append (job_ids : List (String × Nat))
    (l₁ l₂ completed : List String) (failed_job : String) (s : Store) :
    skip_remaining_jobs job_ids (l₁ ++ l₂) completed failed_job s =
      skip_remaining_jobs job_ids l₂ completed failed_job
        (skip_remaining_jobs job_ids l₁ completed failed_job s) := by
  simp [skip_remaining_jobs, List.foldl_append]

/-- Jobs that completed, or the failing one, are not touched by the skip
loop. -/
theorem skip_remaining_jobs_noop (job_ids : List (String × Nat))
    (completed : List String) (failed_job : String) :
    ∀ (l : List String) (s : Store),
      (∀ n ∈ l, n ∈ completed ∨ n = failed_job) →
      skip_remaining_jobs job_ids l completed failed_job s = s := by
  intro l
  induction l with
  | nil => intro s _; rfl
  | cons n rest ih =>
      intro s hl
      have hn : (completed.contains n || (n == failed_job)) = true := by
        rcases hl n (by simp) with h | h
        · simp [h]
        · simp [h]
      simp only [skip_remaining_jobs, List.foldl_cons, hn, if_true]
      exact ih s (fun n' hn' => hl n' (by simp [hn']))

/-- One step of the skip loop. -/
theorem skip_remaining_jobs_cons (job_ids : List (String × Nat)) (n : String)
    (rest completed : List String) (failed_job : String) (s : Store) :
    skip_remaining_jobs job_ids (n :: rest) completed failed_job s =
      skip_remaining_jobs job_ids rest completed failed_job
        (if completed.contains n || n == failed_job then s
         else s.update_job_status (idOf job_ids n) "skipped") := by
  by_cases h : (completed.contains n || (n == failed_job)) = true
  · simp [skip_remaining_jobs, h]
  · simp only [Bool.not_eq_true] at h
    simp [skip_remaining_jobs, h]

/-- The skip loop over the still-pending block marks every row skipped,
leaving the log empty. -/
theorem skip_remaining_jobs_pend (job_ids : List (String × Nat)) (pid : Nat)
    (completed : List String) (failed_job : String) :
    ∀ (post : List String) (base : List JobRow) (m : Nat) (s : Store),
      s.jobs = base ++ pendRows pid post m →
      (∀ r ∈ base, r.id < m) →
      (∀ (i : Nat) (h : i < post.length),
        idOf job_ids (post.get ⟨i, h⟩) = m + i) →
      (∀ n ∈ post, n ∉ completed ∧ n ≠ failed_job) →
      skip_remaining_jobs job_ids post completed failed_job s =
        { s with jobs := base ++ skippedRows pid post m } := by
  intro post
  induction post with
  | nil =>
      intro base m s hjobs hbase hids hpost
      have : base ++ skippedRows pid [] m = s.jobs := by
        rw [hjobs]; simp [skippedRows, pendRows]
      rw [this]
      rfl
  | cons n rest ih =>
      intro base m s hjobs hbase hids hpost
      have hn : (completed.contains n || (n == failed_job)) = false := by
        have := hpost n (by simp)
        simp [this.1, this.2]
      have hid0 : idOf job_ids n = m := by simpa using hids 0 (by simp)
      rw [skip_remaining_jobs_cons]
      simp only [hn, Bool.false_eq_true, if_false, hid0]
      have hb : ∀ r ∈ base, r.id ≠ m := fun r hr => Nat.ne_of_lt (hbase r hr)
      have ht : ∀ r ∈ pendRows pid rest (m + 1), r.id ≠ m := by
        intro r hr
        have := mem_pendRows_le pid rest (m + 1) r hr
        omega
      have hupd : (s.update_job_status m "skipped") =
          { s with jobs := base ++
              ({ id := m, pipeline_id := pid, job_name := n,
                 status := "skipped", log := none } : JobRow) ::
                pendRows pid rest (m + 1) } := by
        simp only [Store.update_job_status]
        rw [hjobs, pendRows_cons, List.map_append, List.map_cons,
          update_map_ne _ _ base hb, update_map_ne _ _ _ ht]
        simp
      have happ := ih
        (base ++ [{ id := m, pipeline_id := pid, job_name := n,
                    status := "skipped", log := none }])
        (m + 1)
        { s with jobs := base ++
            ({ id := m, pipeline_id := pid, job_name := n,
               status := "skipped", log := none } : JobRow) ::
              pendRows pid rest (m + 1) }
        (by simp)
        (by
          intro r hr
          rcases List.mem_append.mp hr with hr | hr
          · exact Nat.lt_succ_of_lt (hbase r hr)
          · simp at hr
            simp [hr])
        (by
          intro i hilt
          have := hids (i + 1) (by simpa using Nat.succ_lt_succ hilt)
          rw [show (n :: rest).get ⟨i + 1, by simpa using Nat.succ_lt_succ hilt⟩ =
            rest.get ⟨i, hilt⟩ from rfl] at this
          rw [this]
          omega)
        (fun n' hn' => hpost n' (by simp [hn']))
      rw [hupd, happ, skippedRows_cons]
      simp [List.append_assoc]

/-- Bounds and fields of the success rows. -/
theorem mem_successRows (runner : JobSpec → Except String RunnerResult)
    (config : PipelineConfig) (pid : Nat) :
    ∀ (names : List String) (start : Nat) (r : JobRow),
      r ∈ successRows runner config pid names start →
      start ≤ r.id ∧ r.id < start + names.length ∧ r.pipeline_id = pid := by
  intro names
  induction names with
  | nil => intro start r h; simp [successRows] at h
  | cons n rest ih =>
      intro start r h
      rw [successRows_cons] at h
      rcases List.mem_cons.mp h with h | h
      · subst h; simp
      · have := ih (start + 1) r h
        refine ⟨by omega, by simp; omega, this.2.2⟩

/-- Bounds and fields of the skipped rows. -/
theorem mem_skippedRows (pid : Nat) :
    ∀ (names : List String) (start : Nat) (r : JobRow),
      r ∈ skippedRows pid names start →
      start ≤ r.id ∧ r.id < start + names.length ∧ r.pipeline_id = pid := by
  intro names
  induction names with
  | nil => intro start r h; simp [skippedRows] at h
  | cons n rest ih =>
      intro start r h
      rw [skippedRows_cons] at h
      rcases List.mem_cons.mp h with h | h
      · subst h; simp
      · have := ih (start + 1) r h
        refine ⟨by omega, by simp; omega, this.2.2⟩

/-- Fields of the pending rows. -/
theorem mem_pendRows (pid : Nat) :
    ∀ (names : List String) (start : Nat) (r : JobRow),
      r ∈ pendRows pid names start →
      r.id < start + names.length ∧ r.pipeline_id = pid := by
  intro names
  induction names with
  | nil => intro start r h; simp [pendRows] at h
  | cons n rest ih =>
      intro start r h
      rw [pendRows_cons] at h
      rcases List.mem_cons.mp h with h | h
      · subst h; simp
      · have := ih (start + 1) r h
        refine ⟨by simp; omega, this.2⟩

theorem successRows_name_status (runner : JobSpec → Except String RunnerResult)
    (config : PipelineConfig) (pid : Nat) :
    ∀ (names : List String) (start : Nat),
      (successRows runner config pid names start).map
          (fun r => (r.job_name, r.status)) =
        names.map (fun n => (n, "success")) := by
  intro names
  induction names with
  | nil => intro start; rfl
  | cons n rest ih => intro start; rw [successRows_cons]; simp [ih]

theorem skippedRows_name_status (pid : Nat) :
    ∀ (names : List String) (start : Nat),
      (skippedRows pid names start).map (fun r => (r.job_name, r.status)) =
        names.map (fun n => (n, "skipped")) := by
  intro names
  induction names with
  | nil => intro start; rfl
  | cons n rest ih => intro start; rw [skippedRows_cons]; simp [ih]

theorem pendRows_names (pid : Nat) :
    ∀ (names : List String) (start : Nat),
      (pendRows pid names start).map (fun r => r.job_name) = names := by
  intro names
  induction names with
  | nil => intro start; rfl
  | cons n rest ih => intro start; rw [pendRows_cons]; simp [ih]

/-- Updating a pipeline's status rewrites exactly its record as found by
`get_pipeline`. -/
theorem get_pipeline_update (s : Store) (pid : Nat) (st : String) :
    (s.update_pipeline_status pid st).get_pipeline pid =
      (s.get_pipeline pid).map (fun r => { r with status := st }) := by
  simp only [Store.update_pipeline_status, Store.get_pipeline]
  induction s.pipelines with
  | nil => rfl
  | cons p rest ih =>
      by_cases h : p.id = pid
      · have hfp : ((if (p.id == pid) = true then { p with status := st } else p) : PipelineRow).id = pid := by
          simp [h]
        simp only [List.map_cons]
        rw [List.find?_cons_of_pos _ (by simpa using hfp),
          List.find?_cons_of_pos _ (by simpa using h)]
        simp [h]
      · have hfp : ((if (p.id == pid) = true then { p with status := st } else p) : PipelineRow).id ≠ pid := by
          simp [h]
        simp only [List.map_cons]
        rw [List.find?_cons_of_neg _ (by simpa using hfp),
          List.find?_cons_of_neg _ (by simpa using h)]
        exact ih

/-- Shifting the position-based id hypothesis past a processed block. -/
theorem idOf_index_shift (job_ids : List (String × Nat))
    (pre rest : List String) (m : Nat)
    (h : ∀ (i : Nat) (hi : i < (pre ++ rest).length),
      idOf job_ids ((pre ++ rest).get ⟨i, hi⟩) = m + i) :
    ∀ (i : Nat) (hi : i < rest.length),
      idOf job_ids (rest.get ⟨i, hi⟩) = m + pre.length + i := by
  intro i hi
  have hlt : pre.length + i < (pre ++ rest).length := by simp; omega
  have hget : (pre ++ rest).get ⟨pre.length + i, hlt⟩ = rest.get ⟨i, hi⟩ := by
    simp [List.get_eq_getElem, List.getElem_append_right]
  have := h (pre.length + i) hlt
  rw [hget] at this
  rw [this]
  omega

/-- The job loop when every job in the order succeeds. -/
theorem run_jobs_loop_all_success
    (runner : JobSpec → Except String RunnerResult) (config : PipelineConfig)
    (job_ids : List (String × Nat)) (pid : Nat)
    (names : List String) (base : List JobRow) (m : Nat) (s : Store)
    (completed : List String)
    (hjobs : s.jobs = base ++ pendRows pid names m)
    (hbase : ∀ r ∈ base, r.id < m)
    (hids : ∀ (i : Nat) (h : i < names.length),
      idOf job_ids (names.get ⟨i, h⟩) = m + i)
    (hall : ∀ n ∈ names, ∃ res,
      runner (jobSpecOf config n) = .ok res ∧ res.success = true) :
    run_jobs_loop runner config job_ids names s completed =
      ({ s with jobs := base ++ successRows runner config pid names m },
       completed ++ names, none) := by
  have := run_jobs_loop_success_front runner config job_ids pid names [] base m s
    completed (by simpa using hjobs) hbase (by simpa using hids) hall
  simpa [run_jobs_loop, pendRows] using this

/-- The job loop when a block of successes is followed by a failing job:
the loop stops at the failure, later jobs stay pending. -/
theorem run_jobs_loop_fail_at
    (runner : JobSpec → Except String RunnerResult) (config : PipelineConfig)
    (job_ids : List (String × Nat)) (pid : Nat)
    (pre : List String) (K : String) (post : List String)
    (base : List JobRow) (m : Nat) (s : Store) (res : RunnerResult)
    (hjobs : s.jobs = base ++ pendRows pid (pre ++ K :: post) m)
    (hbase : ∀ r ∈ base, r.id < m)
    (hids : ∀ (i : Nat) (h : i < (pre ++ K :: post).length),
      idOf job_ids ((pre ++ K :: post).get ⟨i, h⟩) = m + i)
    (hpre : ∀ n ∈ pre, ∃ r, runner (jobSpecOf config n) = .ok r ∧ r.success = true)
    (hK : runner (jobSpecOf config K) = .ok res)
    (hfail : res.success = false) :
    run_jobs_loop runner config job_ids (pre ++ K :: post) s [] =
      ({ s with jobs := base ++ successRows runner config pid pre m ++
          ({ id := m + pre.length, pipeline_id := pid, job_name := K,
             status := "failure", log := some res.output } ::
            pendRows pid post (m + pre.length + 1)) },
       pre, some K) := by
  have hb2 : ∀ r ∈ base ++ successRows runner config pid pre m,
      r.id < m + pre.length := by
    intro r hr
    rcases List.mem_append.mp hr with hr | hr
    · have := hbase r hr; omega
    · have := mem_successRows runner config pid pre m r hr; omega
  have hidK : idOf job_ids K = m + pre.length := by
    have := idOf_index_shift job_ids pre (K :: post) m hids 0 (by simp)
    simpa using this
  rw [run_jobs_loop_success_front runner config job_ids pid pre (K :: post) base m s
    [] hjobs hbase hids hpre]
  simp only [List.nil_append]
  rw [run_jobs_loop_fail_head runner config job_ids pid K post
    (base ++ successRows runner config pid pre m) (m + pre.length)
    _ pre res (by simp [List.append_assoc]) hb2 hidK hK hfail]

/-- Pipeline-status updates do not touch the jobs table or the counters. -/
theorem update_pipeline_status_jobs (s : Store) (pid : Nat) (st : String) :
    (s.update_pipeline_status pid st).jobs = s.jobs := rfl

theorem update_pipeline_status_next_job_id (s : Store) (pid : Nat) (st : String) :
    (s.update_pipeline_status pid st).next_job_id = s.next_job_id := rfl

theorem update_pipeline_status_next_pipeline_id (s : Store) (pid : Nat)
    (st : String) :
    (s.update_pipeline_status pid st).next_pipeline_id = s.next_pipeline_id := rfl

theorem update_pipeline_status_get_jobs (s : Store) (pid pid2 : Nat) (st : String) :
    (s.update_pipeline_status pid st).get_jobs_for_pipeline pid2 =
      s.get_jobs_for_pipeline pid2 := rfl

/-! ## C8 — an all-success run -/

/-- C8: when every job in the resolved order succeeds, `run_pipeline` marks
the pipeline success, every JobRun ends success in resolved order, and the
observer receives a success report whose description names the number of
jobs executed (the length of the resolved order). -/
theorem c8_all_jobs_success
    (runner : JobSpec → Except String RunnerResult) (s : Store)
    (pipeline_id : Nat) (config : PipelineConfig) (pipeline : PipelineRow)
    (hpipe : s.get_pipeline pipeline_id = some pipeline)
    (hfresh : s.get_jobs_for_pipeline pipeline_id = [])
    (hwf : ∀ r ∈ s.jobs, r.id < s.next_job_id)
    (hnodup : (execution_order config).Nodup)
    (hall : ∀ n ∈ execution_order config, ∃ res,
      runner (jobSpecOf config n) = .ok res ∧ res.success = true) :
    (run_pipeline runner s pipeline_id config).1.get_pipeline pipeline_id =
      some { pipeline with status := "success" } ∧
    ((run_pipeline runner s pipeline_id config).1.get_jobs_for_pipeline
        pipeline_id).map (fun r => (r.job_name, r.status)) =
      (execution_order config).map (fun n => (n, "success")) ∧
    (run_pipeline runner s pipeline_id config).2 =
      [.pipelineStatus pipeline_id "running",
       .notify "pending" pipeline.repo pipeline.commit_sha pipeline_id
         "Pipeline is running",
       .pipelineStatus pipeline_id "success",
       .notify "success" pipeline.repo pipeline.commit_sha pipeline_id
         ("Pipeline succeeded (" ++
           toString (execution_order config).length ++ " jobs)")] := by
  have hens := ensure_job_records_fresh
    (s.update_pipeline_status pipeline_id "running")
    pipeline_id (execution_order config) hnodup hfresh
  simp only [update_pipeline_status_jobs, update_pipeline_status_next_job_id,
    update_pipeline_status_next_pipeline_id] at hens
  have hloop := run_jobs_loop_all_success runner config
    ((execution_order config).zip
      (List.range' s.next_job_id (execution_order config).length))
    pipeline_id (execution_order config) s.jobs s.next_job_id
    { pipelines := (s.update_pipeline_status pipeline_id "running").pipelines,
      jobs := s.jobs ++ pendRows pipeline_id (execution_order config) s.next_job_id,
      next_pipeline_id := s.next_pipeline_id,
      next_job_id := s.next_job_id + (execution_order config).length }
    []
    rfl
    hwf
    (idOf_zip_range (execution_order config) s.next_job_id hnodup)
    hall
  have hrun : run_pipeline runner s pipeline_id config =
      ((({ s with
            jobs := s.jobs ++ successRows runner config pipeline_id
              (execution_order config) s.next_job_id,
            next_job_id := s.next_job_id + (execution_order config).length } :
          Store).update_pipeline_status pipeline_id "running").update_pipeline_status
            pipeline_id "success",
       [.pipelineStatus pipeline_id "running",
        .notify "pending" pipeline.repo pipeline.commit_sha pipeline_id
          "Pipeline is running",
        .pipelineStatus pipeline_id "success",
        .notify "success" pipeline.repo pipeline.commit_sha pipeline_id
          ("Pipeline succeeded (" ++
            toString (execution_order config).length ++ " jobs)")]) := by
    simp only [run_pipeline, hpipe]
    rw [hens]
    simp only
    rw [hloop]
    rfl
  refine ⟨?_, ?_, ?_⟩
  · rw [hrun]
    rw [get_pipeline_update, get_pipeline_update]
    have hY : ({ s with
        jobs := s.jobs ++ successRows runner config pipeline_id
          (execution_order config) s.next_job_id,
        next_job_id := s.next_job_id + (execution_order config).length } :
        Store).get_pipeline pipeline_id = some pipeline := hpipe
    rw [hY]
    rfl
  · rw [hrun]
    have hjobs : ((({ s with
          jobs := s.jobs ++ successRows runner config pipeline_id
            (execution_order config) s.next_job_id,
          next_job_id := s.next_job_id + (execution_order config).length } :
        Store).update_pipeline_status pipeline_id "running").update_pipeline_status
          pipeline_id "success").get_jobs_for_pipeline pipeline_id =
        (s.jobs ++ successRows runner config pipeline_id
          (execution_order config) s.next_job_id).filter
          (fun r => r.pipeline_id == pipeline_id) := rfl
    rw [hjobs, List.filter_append]
    have h1 : s.jobs.filter (fun r => r.pipeline_id == pipeline_id) = [] := hfresh
    have h2 : (successRows runner config pipeline_id
        (execution_order config) s.next_job_id).filter
          (fun r => r.pipeline_id == pipeline_id) =
        successRows runner config pipeline_id (execution_order config)
          s.next_job_id := by
      refine List.filter_eq_self.mpr ?_
      intro r hr
      have := mem_successRows runner config pipeline_id _ _ r hr
      simp [this.2.2]
    rw [h1, h2, List.nil_append, successRows_name_status]
  · rw [hrun]

/-! ## C2 — a mid-order failure -/

/-- C2: when the jobs before `K` succeed, `K` fails (runner reports
success=false) and `K` is not last, `run_pipeline` leaves every job before
`K` success, `K` failure, every job after `K` skipped, and the pipeline
record failure. -/
theorem c2_failure_stops_and_skips
    (runner : JobSpec → Except String RunnerResult) (s : Store)
    (pipeline_id : Nat) (config : PipelineConfig) (pipeline : PipelineRow)
    (pre : List String) (K : String) (post : List String) (res : RunnerResult)
    (hpipe : s.get_pipeline pipeline_id = some pipeline)
    (hfresh : s.get_jobs_for_pipeline pipeline_id = [])
    (hwf : ∀ r ∈ s.jobs, r.id < s.next_job_id)
    (horder : execution_order config = pre ++ K :: post)
    (hnodup : (pre ++ K :: post).Nodup)
    (hnotlast : post ≠ [])
    (hpre : ∀ n ∈ pre, ∃ r, runner (jobSpecOf config n) = .ok r ∧ r.success = true)
    (hK : runner (jobSpecOf config K) = .ok res)
    (hfail : res.success = false) :
    (run_pipeline runner s pipeline_id config).1.get_pipeline pipeline_id =
      some { pipeline with status := "failure" } ∧
    ((run_pipeline runner s pipeline_id config).1.get_jobs_for_pipeline
        pipeline_id).map (fun r => (r.job_name, r.status)) =
      pre.map (fun n => (n, "success")) ++ [(K, "failure")] ++
        post.map (fun n => (n, "skipped")) := by
  have hnodup' : (execution_order config).Nodup := by rw [horder]; exact hnodup
  have hens := ensure_job_records_fresh
    (s.update_pipeline_status pipeline_id "running")
    pipeline_id (execution_order config) hnodup' hfresh
  simp only [update_pipeline_status_jobs, update_pipeline_status_next_job_id,
    update_pipeline_status_next_pipeline_id] at hens
  have hids := idOf_zip_range (pre ++ K :: post) s.next_job_id hnodup
  have hloopfail := run_jobs_loop_fail_at runner config
    ((pre ++ K :: post).zip
      (List.range' s.next_job_id (pre ++ K :: post).length))
    pipeline_id pre K post s.jobs s.next_job_id
    { pipelines := (s.update_pipeline_status pipeline_id "running").pipelines,
      jobs := s.jobs ++ pendRows pipeline_id (pre ++ K :: post) s.next_job_id,
      next_pipeline_id := s.next_pipeline_id,
      next_job_id := s.next_job_id + (pre ++ K :: post).length }
    res rfl hwf hids hpre hK hfail
  -- decompose the skip pass
  have hdisj := List.nodup_append.mp hnodup
  have hKpost := List.nodup_cons.mp hdisj.2.1
  have hskipA : ∀ (st : Store),
      skip_remaining_jobs
        ((pre ++ K :: post).zip
          (List.range' s.next_job_id (pre ++ K :: post).length))
        (pre ++ K :: post) pre K st =
      skip_remaining_jobs
        ((pre ++ K :: post).zip
          (List.range' s.next_job_id (pre ++ K :: post).length))
        post pre K st := by
    intro st
    rw [skip_remaining_jobs_append]
    rw [skip_remaining_jobs_noop _ _ _ pre st (fun n hn => Or.inl hn)]
    rw [skip_remaining_jobs_cons]
    simp
  have hidspost : ∀ (i : Nat) (hi : i < post.length),
      idOf ((pre ++ K :: post).zip
        (List.range' s.next_job_id (pre ++ K :: post).length))
        (post.get ⟨i, hi⟩) = s.next_job_id + pre.length + 1 + i := by
    intro i hi
    have := idOf_index_shift _ pre (K :: post) s.next_job_id hids (i + 1)
      (by simpa using Nat.succ_lt_succ hi)
    rw [show (K :: post).get ⟨i + 1, by simpa using Nat.succ_lt_succ hi⟩ =
      post.get ⟨i, hi⟩ from rfl] at this
    rw [this]
    omega
  have hpost2 : ∀ n ∈ post, n ∉ pre ∧ n ≠ K := by
    intro n hn
    constructor
    · intro hc
      exact (hdisj.2.2 hc) (by simp [hn])
    · intro hc
      exact hKpost.1 (hc ▸ hn)
  have hskipB := skip_remaining_jobs_pend
    ((pre ++ K :: post).zip
      (List.range' s.next_job_id (pre ++ K :: post).length))
    pipeline_id pre K post
    (s.jobs ++ successRows runner config pipeline_id pre s.next_job_id ++
      [{ id := s.next_job_id + pre.length, pipeline_id := pipeline_id,
         job_name := K, status := "failure", log := some res.output }])
    (s.next_job_id + pre.length + 1)
    { pipelines := (s.update_pipeline_status pipeline_id "running").pipelines,
      jobs := s.jobs ++ successRows runner config pipeline_id pre s.next_job_id ++
        ({ id := s.next_job_id + pre.length, pipeline_id := pipeline_id,
           job_name := K, status := "failure", log := some res.output } ::
          pendRows pipeline_id post (s.next_job_id + pre.length + 1)),
      next_pipeline_id := s.next_pipeline_id,
      next_job_id := s.next_job_id + (pre ++ K :: post).length }
    (by simp [List.append_assoc])
    (by
      intro r hr
      rcases List.mem_append.mp hr with hr | hr
      · rcases List.mem_append.mp hr with hr | hr
        · have := hwf r hr; omega
        · have := mem_successRows runner config pipeline_id pre s.next_job_id r hr
          omega
      · simp at hr
        simp [hr])
    hidspost
    hpost2
  have hrun : run_pipeline runner s pipeline_id config =
      ((({ s with
            jobs := s.jobs ++ successRows runner config pipeline_id pre s.next_job_id ++
              ({ id := s.next_job_id + pre.length, pipeline_id := pipeline_id,
                 job_name := K, status := "failure", log := some res.output } ::
                skippedRows pipeline_id post (s.next_job_id + pre.length + 1)),
            next_job_id := s.next_job_id + (pre ++ K :: post).length } :
          Store).update_pipeline_status pipeline_id "running").update_pipeline_status
            pipeline_id "failure",
       [.pipelineStatus pipeline_id "running",
        .notify "pending" pipeline.repo pipeline.commit_sha pipeline_id
          "Pipeline is running",
        .pipelineStatus pipeline_id "failure",
        .notify "failure" pipeline.repo pipeline.commit_sha pipeline_id
          (if K = "" then "Pipeline failed" else "Job " ++ K ++ " failed")]) := by
    simp only [run_pipeline, hpipe]
    rw [hens]
    simp only
    rw [horder]
    rw [hloopfail]
    simp only
    rw [hskipA, hskipB]
    simp [List.append_assoc]
    rfl
  refine ⟨?_, ?_⟩
  · rw [hrun]
    rw [get_pipeline_update, get_pipeline_update]
    have hY : ({ s with
        jobs := s.jobs ++ successRows runner config pipeline_id pre s.next_job_id ++
          ({ id := s.next_job_id + pre.length, pipeline_id := pipeline_id,
             job_name := K, status := "failure", log := some res.output } ::
            skippedRows pipeline_id post (s.next_job_id + pre.length + 1)),
        next_job_id := s.next_job_id + (pre ++ K :: post).length } :
        Store).get_pipeline pipeline_id = some pipeline := hpipe
    rw [hY]
    rfl
  · rw [hrun]
    have hjobs : ((run_pipeline runner s pipeline_id config).1).jobs =
      ((run_pipeline runner s pipeline_id config).1).jobs := rfl
    have hget : ((({ s with
          jobs := s.jobs ++ successRows runner config pipeline_id pre s.next_job_id ++
            ({ id := s.next_job_id + pre.length, pipeline_id := pipeline_id,
               job_name := K, status := "failure", log := some res.output } ::
              skippedRows pipeline_id post (s.next_job_id + pre.length + 1)),
          next_job_id := s.next_job_id + (pre ++ K :: post).length } :
        Store).update_pipeline_status pipeline_id "running").update_pipeline_status
          pipeline_id "failure").get_jobs_for_pipeline pipeline_id =
        (s.jobs ++ successRows runner config pipeline_id pre s.next_job_id ++
          ({ id := s.next_job_id + pre.length, pipeline_id := pipeline_id,
             job_name := K, status := "failure", log := some res.output } ::
            skippedRows pipeline_id post (s.next_job_id + pre.length + 1))).filter
          (fun r => r.pipeline_id == pipeline_id) := rfl
    rw [hget]
    rw [List.filter_append, List.filter_append]
    have h1 : s.jobs.filter (fun r => r.pipeline_id == pipeline_id) = [] := hfresh
    have h2 : (successRows runner config pipeline_id pre s.next_job_id).filter
          (fun r => r.pipeline_id == pipeline_id) =
        successRows runner config pipeline_id pre s.next_job_id := by
      refine List.filter_eq_self.mpr ?_
      intro r hr
      have := mem_successRows runner config pipeline_id _ _ r hr
      simp [this.2.2]
    have h3 : (skippedRows pipeline_id post (s.next_job_id + pre.length + 1)).filter
          (fun r => r.pipeline_id == pipeline_id) =
        skippedRows pipeline_id post (s.next_job_id + pre.length + 1) := by
      refine List.filter_eq_self.mpr ?_
      intro r hr
      have := mem_skippedRows pipeline_id _ _ r hr
      simp [this.2.2]
    rw [h1, h2, List.nil_append, List.filter_cons]
    simp only [beq_self_eq_true, if_true, reduceIte]
    rw [h3]
    simp [successRows_name_status, skippedRows_name_status]

/-! ## C9 — idempotent job-record creation -/

theorem keys_map_update {α : Type} (d : List (String × α)) (k' : String) (v : α) :
    ((d.map (fun e => if e.1 == k' then (k', v) else e)).map Prod.fst) =
      d.map Prod.fst := by
  induction d with
  | nil => rfl
  | cons e rest ih =>
      simp only [List.map_cons, ih]
      congr 1
      by_cases he : (e.1 == k') = true
      · have heq : e.1 = k' := by simpa using he
        simp [he, heq]
      · simp [he]

/-- Key membership after a Python dict assignment. -/
theorem mem_keys_dictInsert {α : Type} (d : List (String × α)) (k' : String)
    (v : α) (k : String) :
    k ∈ (dictInsert d k' v).map Prod.fst ↔ k ∈ d.map Prod.fst ∨ k = k' := by
  unfold dictInsert
  by_cases h : (d.any (fun e => e.1 == k')) = true
  · simp only [h, if_true, keys_map_update]
    constructor
    · exact Or.inl
    · intro hk
      rcases hk with hk | hk
      · exact hk
      · subst hk
        simp only [List.any_eq_true] at h
        obtain ⟨e, he, heq⟩ := h
        exact List.mem_map.mpr ⟨e, he, by simpa using heq⟩
  · simp [h]

/-- The keys of the `existing` dict built from the rows are exactly the row
names. -/
theorem mem_keys_existing (rows : List JobRow) (k : String) :
    (k ∈ (rows.foldl (fun acc job => dictInsert acc job.job_name job.id)
      ([] : List (String × Nat))).map Prod.fst) ↔
      k ∈ rows.map (fun r => r.job_name) := by
  have hgen : ∀ (rows : List JobRow) (acc : List (String × Nat)),
      (k ∈ (rows.foldl (fun acc job => dictInsert acc job.job_name job.id)
        acc).map Prod.fst) ↔
        k ∈ acc.map Prod.fst ∨ k ∈ rows.map (fun r => r.job_name) := by
    intro rows
    induction rows with
    | nil => intro acc; simp
    | cons r rest ih =>
        intro acc
        simp only [List.foldl_cons, ih, mem_keys_dictInsert, List.map_cons,
          List.mem_cons]
        tauto
  simpa using hgen rows []

/-- After the creation loop, every requested name (and every name already
bound in the dict, provided it named a row) names a row of the pipeline. -/
theorem ensureLoop_covers (pipeline_id : Nat) :
    ∀ (names : List String) (acc : List (String × Nat)) (s : Store),
      (∀ k ∈ acc.map Prod.fst,
        k ∈ (s.get_jobs_for_pipeline pipeline_id).map (fun r => r.job_name)) →
      ∀ n, (n ∈ acc.map Prod.fst ∨ n ∈ names) →
        n ∈ (((ensureLoop pipeline_id names acc s).2).get_jobs_for_pipeline
          pipeline_id).map (fun r => r.job_name) := by
  intro names
  induction names with
  | nil =>
      intro acc s hsub n hn
      rcases hn with hn | hn
      · exact hsub n hn
      · simp at hn
  | cons n0 rest ih =>
      intro acc s hsub n hn
      by_cases hc : ((acc.map Prod.fst).contains n0) = true
      · simp only [ensureLoop, hc, if_true]
        apply ih acc s hsub
        rcases hn with hn | hn
        · exact Or.inl hn
        · rcases List.mem_cons.mp hn with hn | hn
          · subst hn; exact Or.inl (by simpa using hc)
          · exact Or.inr hn
      · simp only [ensureLoop, hc, Bool.false_eq_true, if_false]
        have hrownames : ((s.create_job pipeline_id n0).2.get_jobs_for_pipeline
            pipeline_id).map (fun r => r.job_name) =
            (s.get_jobs_for_pipeline pipeline_id).map (fun r => r.job_name) ++
              [n0] := by
          simp [Store.create_job, Store.get_jobs_for_pipeline, List.filter_append]
        apply ih
        · intro k hk
          rcases (mem_keys_dictInsert acc n0 _ k).mp hk with hk | hk
          · rw [hrownames]
            exact List.mem_append_left _ (hsub k hk)
          · subst hk
            rw [hrownames]
            exact List.mem_append_right _ (by simp)
        · rcases hn with hn | hn
          · exact Or.inl ((mem_keys_dictInsert acc n0 _ n).mpr (Or.inl hn))
          · rcases List.mem_cons.mp hn with hn | hn
            · exact Or.inl ((mem_keys_dictInsert acc n0 _ n).mpr (Or.inr hn))
            · exact Or.inr hn

/-- The creation loop is a no-op when every requested name is already
bound. -/
theorem ensureLoop_all_present (pipeline_id : Nat) :
    ∀ (names : List String) (acc : List (String × Nat)) (s : Store),
      (∀ n ∈ names, n ∈ acc.map Prod.fst) →
      ensureLoop pipeline_id names acc s = (acc, s) := by
  intro names
  induction names with
  | nil => intro acc s _; rfl
  | cons n rest ih =>
      intro acc s hall
      have hc : ((acc.map Prod.fst).contains n) = true := by
        simpa using hall n (by simp)
      simp only [ensureLoop, hc, if_true]
      exact ih acc s (fun n' hn' => hall n' (by simp [hn']))

/-- C9: `_ensure_job_records` is idempotent — a second invocation (after
rows already exist) creates no rows at all, and over a pipeline with no
prior rows each requested name maps to exactly one JobRun row, in order. -/
theorem c9_ensure_job_records_idempotent
    (s : Store) (pipeline_id : Nat) (names : List String)
    (hfresh : s.get_jobs_for_pipeline pipeline_id = [])
    (hnodup : names.Nodup) :
    (∀ (s₀ : Store),
      (ensure_job_records (ensure_job_records s₀ pipeline_id names).2
        pipeline_id names).2 = (ensure_job_records s₀ pipeline_id names).2) ∧
    ((ensure_job_records s pipeline_id names).2.get_jobs_for_pipeline
        pipeline_id).map (fun r => r.job_name) = names := by
  constructor
  · intro s₀
    have hcov : ∀ n ∈ names,
        n ∈ (((ensure_job_records s₀ pipeline_id names).2).get_jobs_for_pipeline
          pipeline_id).map (fun r => r.job_name) := by
      intro n hn
      unfold ensure_job_records
      exact ensureLoop_covers pipeline_id names _ s₀
        (fun k hk => (mem_keys_existing _ k).mp hk) n (Or.inr hn)
    conv_lhs => rw [ensure_job_records]
    rw [ensureLoop_all_present pipeline_id names _ _
      (fun n hn => (mem_keys_existing _ n).mpr (hcov n hn))]
  · rw [ensure_job_records_fresh s pipeline_id names hnodup hfresh]
    have hget : (({ s with
        jobs := s.jobs ++ pendRows pipeline_id names s.next_job_id,
        next_job_id := s.next_job_id + names.length } :
        Store).get_jobs_for_pipeline pipeline_id) =
        (s.jobs ++ pendRows pipeline_id names s.next_job_id).filter
          (fun r => r.pipeline_id == pipeline_id) := rfl
    rw [hget, List.filter_append]
    have h1 : s.jobs.filter (fun r => r.pipeline_id == pipeline_id) = [] := hfresh
    have h2 : (pendRows pipeline_id names s.next_job_id).filter
          (fun r => r.pipeline_id == pipeline_id) =
        pendRows pipeline_id names s.next_job_id := by
      refine List.filter_eq_self.mpr ?_
      intro r hr
      have := mem_pendRows pipeline_id _ _ r hr
      simp [this.2]
    rw [h1, h2, List.nil_append, pendRows_names]

/-- A three-job configuration a → b → c. -/
def cfgThree : PipelineConfig :=
  { name := "w",
    jobs := [("a", { name := "a", image := "i", steps := [{ kind := "checkout" }] }),
             ("b", { name := "b", image := "i", steps := [{ kind := "checkout" }] }),
             ("c", { name := "c", image := "i", steps := [{ kind := "checkout" }] })],
    job_order := ["a", "b", "c"],
    dependencies := [("a", []), ("b", ["a"]), ("c", ["b"])] }

/-- A runner that fails exactly the job named `b`. -/
def runnerFailB : JobSpec → Except String RunnerResult :=
  fun j =>
    if j.name == "b" then .ok { success := false, output := "boom", return_code := some 1 }
    else .ok { success := true, output := "ok\n", return_code := some 0 }

/-- Witness for `c8_all_jobs_success` at a concrete one-job pipeline. -/
theorem c8_all_jobs_success_witness :
    (run_pipeline okRunner storeOnePipeline 1 cfgLint).1.get_pipeline 1 =
      some { id := 1, repo := "octo/repo", commit_sha := "abc123",
             branch := "main", workflow_name := "w", status := "success" } :=
  (c8_all_jobs_success okRunner storeOnePipeline 1 cfgLint _ rfl rfl
    (fun r hr => absurd hr (by simp [storeOnePipeline, Store.create_pipeline, Store.empty]))
    (by decide)
    (fun _ _ => ⟨{ success := true, output := "ok\n", return_code := some 0 }, rfl, rfl⟩)).1

/-- Witness for `c2_failure_stops_and_skips` at a concrete three-job
pipeline failing at `b`. -/
theorem c2_failure_stops_and_skips_witness :
    ((run_pipeline runnerFailB storeOnePipeline 1 cfgThree).1.get_jobs_for_pipeline 1).map
        (fun r => (r.job_name, r.status)) =
      [("a", "success"), ("b", "failure"), ("c", "skipped")] :=
  ((c2_failure_stops_and_skips runnerFailB storeOnePipeline 1 cfgThree _
    ["a"] "b" ["c"] { success := false, output := "boom", return_code := some 1 }
    rfl rfl
    (fun r hr => absurd hr (by simp [storeOnePipeline, Store.create_pipeline, Store.empty]))
    rfl (by decide) (by decide)
    (by
      intro n hn
      simp only [List.mem_singleton] at hn
      subst hn
      exact ⟨{ success := true, output := "ok\n", return_code := some 0 }, rfl, rfl⟩)
    rfl rfl).2).trans (by rfl)

/-- Witness for `c9_ensure_job_records_idempotent` at a concrete store. -/
theorem c9_ensure_job_records_idempotent_witness :
    ((ensure_job_records storeOnePipeline 1 ["a", "b"]).2.get_jobs_for_pipeline 1).map
        (fun r => r.job_name) = ["a", "b"] :=
  (c9_ensure_job_records_idempotent storeOnePipeline 1 ["a", "b"] rfl (by decide)).2

/-! ## The topological order (C1, C3, C10) -/

theorem pyDedupAux_spec :
    ∀ (l seen : List String),
      (pyDedupAux seen l).Nodup ∧ ∀ x ∈ pyDedupAux seen l, x ∉ seen := by
  intro l
  induction l with
  | nil => intro seen; exact ⟨List.nodup_nil, by simp [pyDedupAux]⟩
  | cons y ys ih =>
      intro seen
      by_cases hy : y ∈ seen
      · have hc : (seen.contains y) = true := List.elem_eq_true_of_mem hy
        have he : pyDedupAux seen (y :: ys) = pyDedupAux seen ys := by
          simp only [pyDedupAux]
          rw [if_pos hc]
        rw [he]
        exact ih seen
      · have hc : (seen.contains y) = false := by simpa using hy
        have htail := ih (y :: seen)
        refine ⟨?_, ?_⟩
        · simp only [pyDedupAux, hc, Bool.false_eq_true, if_false]
          refine List.nodup_cons.mpr ⟨?_, htail.1⟩
          intro hmem
          exact (htail.2 y hmem) (by simp)
        · intro x hx
          simp only [pyDedupAux, hc, Bool.false_eq_true, if_false] at hx
          rcases List.mem_cons.mp hx with hx | hx
          · rw [hx]; exact hy
          · intro hmem
            exact (htail.2 x hx) (by simp [hmem])

theorem pyDedup_nodup (l : List String) : (pyDedup l).Nodup :=
  (pyDedupAux_spec l []).1

theorem mem_pyDedupAux :
    ∀ (l seen : List String) (x : String),
      x ∈ pyDedupAux seen l ↔ x ∈ l ∧ x ∉ seen := by
  intro l
  induction l with
  | nil => intro seen x; simp [pyDedupAux]
  | cons y ys ih =>
      intro seen x
      by_cases hy : y ∈ seen
      · have hc : (seen.contains y) = true := List.elem_eq_true_of_mem hy
        simp only [pyDedupAux, hc, if_true, ih, List.mem_cons]
        constructor
        · rintro ⟨hx, hs⟩; exact ⟨Or.inr hx, hs⟩
        · rintro ⟨hx | hx, hs⟩
          · rw [hx] at hs; exact absurd hy hs
          · exact ⟨hx, hs⟩
      · have hc : (seen.contains y) = false := by simpa using hy
        simp only [pyDedupAux, hc, Bool.false_eq_true, if_false,
          List.mem_cons, ih]
        constructor
        · rintro (hx | ⟨hx, hs⟩)
          · rw [hx]; exact ⟨Or.inl rfl, hy⟩
          · refine ⟨Or.inr hx, fun hc => hs (by simp [hc])⟩
        · rintro ⟨hx | hx, hs⟩
          · exact Or.inl hx
          · by_cases hxy : x = y
            · exact Or.inl hxy
            · exact Or.inr ⟨hx, by simp [hs, hxy]⟩

theorem mem_pyDedup (l : List String) (x : String) : x ∈ pyDedup l ↔ x ∈ l := by
  simpa using mem_pyDedupAux l [] x

/-- In a list with pairwise distinct keys, two entries with the same key
coincide. -/
theorem eq_of_mem_keys_nodup {α : Type} :
    ∀ (l : List (String × α)) (x y : String × α),
      (l.map Prod.fst).Nodup → x ∈ l → y ∈ l → x.1 = y.1 → x = y := by
  intro l
  induction l with
  | nil => intro x y _ hx; simp at hx
  | cons e rest ih =>
      intro x y hnd hx hy hxy
      have hhead : e.1 ∉ rest.map Prod.fst :=
        (List.nodup_cons.mp (by simpa using hnd)).1
      have htail : (rest.map Prod.fst).Nodup :=
        (List.nodup_cons.mp (by simpa using hnd)).2
      rcases List.mem_cons.mp hx with hx1 | hx1 <;>
        rcases List.mem_cons.mp hy with hy1 | hy1
      · rw [hx1, hy1]
      · exfalso
        apply hhead
        have hmem : y.1 ∈ rest.map Prod.fst := List.mem_map_of_mem Prod.fst hy1
        rw [hx1] at hxy
        rw [← hxy] at hmem
        exact hmem
      · exfalso
        apply hhead
        have hmem : x.1 ∈ rest.map Prod.fst := List.mem_map_of_mem Prod.fst hx1
        rw [hy1] at hxy
        rw [hxy] at hmem
        exact hmem
      · exact ih x y htail hx1 hy1 hxy

/-- Looking up an entry of a distinct-key association list. -/
theorem alist_find_eq {α : Type} :
    ∀ (l : List (String × α)) (k : String) (v : α),
      (l.map Prod.fst).Nodup → (k, v) ∈ l →
      l.find? (fun e => e.1 == k) = some (k, v) := by
  intro l
  induction l with
  | nil => intro k v _ h; simp at h
  | cons e rest ih =>
      intro k v hnd hmem
      rcases List.mem_cons.mp hmem with h | h
      · have hp : (e.1 == k) = true := by rw [← h]; simp
        simp only [List.find?_cons, hp]
        rw [← h]
      · have hk : k ∈ rest.map Prod.fst := List.mem_map.mpr ⟨(k, v), h, rfl⟩
        have hne : (e.1 == k) = false := by
          simp only [beq_eq_false_iff_ne, ne_eq]
          intro hc
          exact (List.nodup_cons.mp (by simpa using hnd)).1 (hc ▸ hk)
        simp only [List.find?_cons, hne]
        exact ih k v (List.nodup_cons.mp (by simpa using hnd)).2 h

theorem depsGetD_eq {deps : List (String × List String)} {j : String}
    {dl : List String} (hnd : (deps.map Prod.fst).Nodup)
    (hmem : (j, dl) ∈ deps) : depsGetD deps j = dl := by
  simp [depsGetD, alist_find_eq deps j dl hnd hmem]

/-- Invariant of the `while` loop of `_topological_sort`: on success the
output extends `resolved`, contains every remaining job, places every
dependency of a remaining job strictly before it, has exactly the
resolved-plus-remaining names as members, and is duplicate-free. -/
theorem topoLoop_spec :
    ∀ (fuel : Nat) (remaining : List (String × List String))
      (resolved out : List String),
      remaining.length ≤ fuel →
      (remaining.map Prod.fst).Nodup →
      resolved.Nodup →
      (∀ k ∈ remaining.map Prod.fst, k ∉ resolved) →
      topoLoop fuel remaining resolved = .ok out →
      (∃ suffix, out = resolved ++ suffix) ∧
      (∀ jd ∈ remaining, jd.1 ∈ out ∧
        ∀ d ∈ jd.2, out.indexOf d < out.indexOf jd.1) ∧
      (∀ k, k ∈ out ↔ k ∈ resolved ∨ k ∈ remaining.map Prod.fst) ∧
      out.Nodup := by
  intro fuel
  induction fuel with
  | zero =>
      intro remaining resolved out hlen hnk hnr hdisj h
      cases remaining with
      | nil =>
          simp only [topoLoop, Except.ok.injEq] at h
          subst h
          exact ⟨⟨[], by simp⟩, by simp, by simp, hnr⟩
      | cons jd0 rest => simp at hlen
  | succ fuel ih =>
      intro remaining resolved out hlen hnk hnr hdisj h
      cases remaining with
      | nil =>
          simp only [topoLoop, Except.ok.injEq] at h
          subst h
          exact ⟨⟨[], by simp⟩, by simp, by simp, hnr⟩
      | cons jd0 rest =>
          simp only [topoLoop] at h
          split at h
          · simp at h
          · rename_i hready
            obtain ⟨ready, hreadydef⟩ : ∃ ready,
                (jd0 :: rest).filter
                  (fun jd => jd.2.all (fun d => resolved.contains d)) = ready :=
              ⟨_, rfl⟩
            rw [hreadydef] at h hready
            obtain ⟨R2, hR2def⟩ : ∃ R2,
                (jd0 :: rest).filter
                  (fun jd => !((ready.map Prod.fst).contains jd.1)) = R2 :=
              ⟨_, rfl⟩
            rw [hR2def] at h
            have hreadysub : ready.Sublist (jd0 :: rest) :=
              hreadydef ▸ List.filter_sublist _
            have hR2sub : R2.Sublist (jd0 :: rest) :=
              hR2def ▸ List.filter_sublist _
            have hkeysub : (R2.map Prod.fst).Sublist ((jd0 :: rest).map Prod.fst) :=
              hR2sub.map _
            have hreadykeysub :
                (ready.map Prod.fst).Sublist ((jd0 :: rest).map Prod.fst) :=
              hreadysub.map _
            have hnk2 : (R2.map Prod.fst).Nodup := hnk.sublist hkeysub
            have hreadynodup : (ready.map Prod.fst).Nodup := hnk.sublist hreadykeysub
            have hlen2 : R2.length ≤ fuel := by
              have hlt : R2.length < (jd0 :: rest).length := by
                rw [← hR2def]
                refine List.length_filter_lt_length_iff_exists.mpr ?_
                obtain ⟨jdr, hjdr⟩ := List.exists_mem_of_ne_nil ready hready
                refine ⟨jdr, hreadysub.subset hjdr, ?_⟩
                intro hq
                have hc : (ready.map Prod.fst).contains jdr.1 = true :=
                  List.elem_eq_true_of_mem (List.mem_map_of_mem Prod.fst hjdr)
                rw [hc] at hq
                simp at hq
              omega
            have hdisjready : ∀ k ∈ ready.map Prod.fst, k ∉ resolved :=
              fun k hk => hdisj k (hreadykeysub.subset hk)
            have hres2 : (resolved ++ ready.map Prod.fst).Nodup := by
              rw [List.nodup_append]
              exact ⟨hnr, hreadynodup, fun a ha hb => (hdisjready a hb) ha⟩
            have hdisj2 : ∀ k ∈ R2.map Prod.fst, k ∉ resolved ++ ready.map Prod.fst := by
              intro k hk
              obtain ⟨jd, hjd, hfst⟩ := List.mem_map.mp hk
              have hjdf : jd ∈ (jd0 :: rest).filter
                  (fun jd => !((ready.map Prod.fst).contains jd.1)) := by
                rw [hR2def]; exact hjd
              have hq : (!((ready.map Prod.fst).contains jd.1)) = true :=
                (List.mem_filter.mp hjdf).2
              simp only [List.mem_append]
              rintro (hc | hc)
              · exact hdisj k (hkeysub.subset hk) hc
              · rw [← hfst] at hc
                have hcc : ((ready.map Prod.fst).contains jd.1) = true :=
                  List.elem_eq_true_of_mem hc
                rw [hcc] at hq
                simp at hq
            have IH := ih R2 (resolved ++ ready.map Prod.fst) out hlen2 hnk2 hres2
              hdisj2 h
            obtain ⟨⟨suffix, hout⟩, hsorted2, hmem2, hnodup2⟩ := IH
            have hsplit : ∀ k, k ∈ (jd0 :: rest).map Prod.fst ↔
                k ∈ ready.map Prod.fst ∨ k ∈ R2.map Prod.fst := by
              intro k
              constructor
              · intro hk
                obtain ⟨jd, hjd, hfst⟩ := List.mem_map.mp hk
                by_cases hq : (!((ready.map Prod.fst).contains jd.1)) = true
                · right
                  rw [← hfst]
                  have hjdf : jd ∈ R2 := by
                    rw [← hR2def]; exact List.mem_filter.mpr ⟨hjd, hq⟩
                  exact List.mem_map_of_mem Prod.fst hjdf
                · left
                  have hc : ((ready.map Prod.fst).contains jd.1) = true := by
                    rcases Bool.eq_false_or_eq_true
                      ((ready.map Prod.fst).contains jd.1) with ht | hf
                    · exact ht
                    · rw [hf] at hq; simp at hq
                  rw [← hfst]
                  simpa using hc
              · rintro (hk | hk)
                · exact hreadykeysub.subset hk
                · exact hkeysub.subset hk
            have hmemiff : ∀ k, k ∈ out ↔
                k ∈ resolved ∨ k ∈ (jd0 :: rest).map Prod.fst := by
              intro k
              rw [hmem2 k, List.mem_append, hsplit k]
              tauto
            refine ⟨⟨ready.map Prod.fst ++ suffix, by rw [hout, List.append_assoc]⟩,
              ?_, hmemiff, hnodup2⟩
            intro jd hjd
            by_cases hq : (!((ready.map Prod.fst).contains jd.1)) = true
            · have hjdf : jd ∈ R2 := by
                rw [← hR2def]; exact List.mem_filter.mpr ⟨hjd, hq⟩
              exact hsorted2 jd hjdf
            · have hcontains : ((ready.map Prod.fst).contains jd.1) = true := by
                rcases Bool.eq_false_or_eq_true
                  ((ready.map Prod.fst).contains jd.1) with ht | hf
                · exact ht
                · rw [hf] at hq; simp at hq
              have hin : jd.1 ∈ ready.map Prod.fst := by simpa using hcontains
              obtain ⟨jd2, hjd2, hk⟩ := List.mem_map.mp hin
              have hjdeq : jd2 = jd := eq_of_mem_keys_nodup (jd0 :: rest) jd2 jd hnk
                (hreadysub.subset hjd2) hjd hk
              have hjdready : jd ∈ ready := hjdeq ▸ hjd2
              have hjdf : jd ∈ (jd0 :: rest).filter
                  (fun jd => jd.2.all (fun d => resolved.contains d)) := by
                rw [hreadydef]; exact hjdready
              have hp : (jd.2.all (fun d => resolved.contains d)) = true :=
                (List.mem_filter.mp hjdf).2
              constructor
              · exact (hmemiff jd.1).mpr (Or.inr (List.mem_map_of_mem Prod.fst hjd))
              · intro d hd
                have hdres : d ∈ resolved := by
                  have := (List.all_eq_true.mp hp) d hd
                  simpa using this
                have hjdnot : jd.1 ∉ resolved :=
                  hdisj jd.1 (List.mem_map_of_mem Prod.fst hjd)
                rw [hout]
                rw [List.indexOf_append_of_mem (List.mem_append_left _ hdres)]
                rw [List.indexOf_append_of_mem (List.mem_append_right _ hin)]
                rw [List.indexOf_append_of_mem hdres]
                rw [List.indexOf_append_of_not_mem hjdnot]
                have h1 : resolved.indexOf d < resolved.length :=
                  List.indexOf_lt_length.mpr hdres
                omega

/-- `_topological_sort` on success: every (deduplicated) job appears in the
output with all its declared dependencies strictly before it; the output
has exactly the job names as members, each once. -/
theorem topological_sort_spec (job_names : List String)
    (dependencies : List (String × List String)) (out : List String)
    (h : topological_sort job_names dependencies = .ok out) :
    (∀ j ∈ pyDedup job_names, j ∈ out ∧
      ∀ d ∈ depsGetD dependencies j, out.indexOf d < out.indexOf j) ∧
    (∀ k, k ∈ out ↔ k ∈ job_names) ∧ out.Nodup := by
  simp only [topological_sort] at h
  have hkeys : (((pyDedup job_names).map
      (fun j => (j, depsGetD dependencies j))).map Prod.fst) =
      pyDedup job_names := by
    generalize pyDedup job_names = l
    induction l with
    | nil => rfl
    | cons x xs ih => simp only [List.map_cons]; rw [ih]
  have hspec := topoLoop_spec
    ((pyDedup job_names).map (fun j => (j, depsGetD dependencies j))).length
    ((pyDedup job_names).map (fun j => (j, depsGetD dependencies j)))
    [] out (le_refl _)
    (by rw [hkeys]; exact pyDedup_nodup _)
    List.nodup_nil
    (by simp)
    h
  obtain ⟨_, hsorted, hmem, hnodup⟩ := hspec
  refine ⟨?_, ?_, hnodup⟩
  · intro j hj
    have hpair : (j, depsGetD dependencies j) ∈
        (pyDedup job_names).map (fun j => (j, depsGetD dependencies j)) :=
      List.mem_map_of_mem _ hj
    exact hsorted (j, depsGetD dependencies j) hpair
  · intro k
    rw [hmem k, hkeys]
    simp [mem_pyDedup]

/-- Successful parsing builds the jobs dict with pairwise distinct keys. -/
theorem parseJobs_keys_nodup :
    ∀ (entries : List (String × Yaml)) (acc jobs : List (String × JobSpec)),
      (entries.foldlM (fun acc p => do
        let spec ← parseJob p.1 p.2
        pure (dictInsert acc p.1 spec)) acc) = .ok jobs →
      (acc.map Prod.fst).Nodup → (jobs.map Prod.fst).Nodup := by
  intro entries
  induction entries with
  | nil =>
      intro acc jobs h hacc
      simp only [List.foldlM, pure, Except.pure, Except.ok.injEq] at h
      rw [← h]
      exact hacc
  | cons p rest ih =>
      intro acc jobs h hacc
      simp only [List.foldlM, bind, Except.bind] at h
      cases hp : parseJob p.1 p.2 with
      | error e => rw [hp] at h; simp at h
      | ok spec =>
          rw [hp] at h
          simp only [pure, Except.pure] at h
          refine ih (dictInsert acc p.1 spec) jobs h ?_
          by_cases hc : (acc.any (fun e => e.1 == p.1)) = true
          · have hkeys := keys_map_update acc p.1 spec
            simp only [dictInsert, hc, if_true]
            rw [hkeys]
            exact hacc
          · have hnotin : p.1 ∉ acc.map Prod.fst := by
              intro hmem
              obtain ⟨e, he, hfst⟩ := List.mem_map.mp hmem
              exact hc (List.any_eq_true.mpr ⟨e, he, by simp [hfst]⟩)
            simp only [dictInsert, hc, Bool.false_eq_true, if_false]
            rw [List.map_append]
            simp [List.nodup_append, hacc, hnotin]

/-- The workflow jobs-list fold keeps the dependency keys unchanged and, on
success, every entry parsed and named a declared job. -/
theorem wf_fold_spec :
    ∀ (entries : List Yaml) (deps res : List (String × List String)),
      (entries.foldlM (fun deps entry => do
        let pr ← parseWorkflowEntry entry
        if (deps.map Prod.fst).contains pr.1 then
          pure (dictUpdate deps pr.1 pr.2)
        else
          Except.error (ConfigError.generic
            ("Workflow references unknown job: " ++ pr.1)))
        deps) = .ok res →
      res.map Prod.fst = deps.map Prod.fst ∧
      ∀ e ∈ entries, ∃ pr, parseWorkflowEntry e = .ok pr ∧
        pr.1 ∈ deps.map Prod.fst := by
  intro entries
  induction entries with
  | nil =>
      intro deps res hh
      simp only [List.foldlM, pure, Except.pure, Except.ok.injEq] at hh
      exact ⟨by rw [← hh], by simp⟩
  | cons e rest ih =>
      intro deps res hh
      simp only [List.foldlM, bind, Except.bind] at hh
      cases hp : parseWorkflowEntry e with
      | error err => rw [hp] at hh; simp at hh
      | ok pr =>
          rw [hp] at hh
          simp only at hh
          by_cases hc : ((deps.map Prod.fst).contains pr.1) = true
          · rw [if_pos hc] at hh
            simp only [pure, Except.pure] at hh
            have hrec := ih (dictUpdate deps pr.1 pr.2) res hh
            have hkeys := keys_map_update deps pr.1 pr.2
            refine ⟨by rw [hrec.1]; exact hkeys, ?_⟩
            intro e2 he2
            rcases List.mem_cons.mp he2 with he2 | he2
            · exact ⟨pr, by rw [he2]; exact hp, by simpa using hc⟩
            · obtain ⟨pr2, hpr2, hmem2⟩ := hrec.2 e2 he2
              exact ⟨pr2, hpr2, by rw [← hkeys]; exact hmem2⟩
          · rw [if_neg hc] at hh
            simp at hh

/-- The workflow jobs list of a decoded document, read the same way
`_extract_workflow_details` reads it: the `jobs` list of the first
non-`version` entry of a `workflows` mapping. -/
def workflowJobsList (data : Yaml) : Option (List Yaml) :=
  match data with
  | .map doc =>
      match alistGet? doc "workflows" with
      | some (.map workflows_section) =>
          match workflows_section.find? (fun e => !(e.1 == "version")) with
          | some (_, .map wf) =>
              match alistGet? wf "jobs" with
              | some (.list jobs_list) => some jobs_list
              | _ => none
          | _ => none
      | _ => none
  | _ => none

/-- `_extract_workflow_details` on success: the dependency keys are the
declared job names, and every workflow job-list entry parsed and named a
declared job. -/
theorem extract_spec (doc : List (String × Yaml)) (job_names : List String)
    (default_name : String) (wfdeps : String × List (String × List String))
    (h : extract_workflow_details doc job_names default_name = .ok wfdeps) :
    wfdeps.2.map Prod.fst = job_names ∧
    (∀ jl, workflowJobsList (Yaml.map doc) = some jl →
      ∀ e ∈ jl, ∃ pr, parseWorkflowEntry e = .ok pr ∧ pr.1 ∈ job_names) := by
  have hinit : (job_names.map (fun j => (j, ([] : List String)))).map Prod.fst =
      job_names := by
    generalize job_names = l
    induction l with
    | nil => rfl
    | cons x xs ih => simp only [List.map_cons]; rw [ih]
  simp only [extract_workflow_details] at h
  cases hw : alistGet? doc "workflows" with
  | none =>
      simp only [hw, Except.ok.injEq] at h
      refine ⟨by rw [← h]; exact hinit, ?_⟩
      intro jl hjl
      simp [workflowJobsList, hw] at hjl
  | some w =>
      cases w with
      | map ws =>
          simp only [hw] at h
          cases hf : ws.find? (fun e => !(e.1 == "version")) with
          | none =>
              simp only [hf, Except.ok.injEq] at h
              refine ⟨by rw [← h]; exact hinit, ?_⟩
              intro jl hjl
              simp [workflowJobsList, hw, hf] at hjl
          | some entry =>
              obtain ⟨wfname, wfdef⟩ := entry
              simp only [hf] at h
              cases wfdef with
              | map wf =>
                  cases hj : alistGet? wf "jobs" with
                  | none =>
                      simp only [hj] at h
                      simp at h
                  | some jv =>
                      cases jv with
                      | list jobs_list =>
                          simp only [hj] at h
                          by_cases he : jobs_list.isEmpty = true
                          · simp only [he, if_true] at h
                            simp at h
                          · simp only [he, Bool.false_eq_true, if_false, bind,
                              Except.bind] at h
                            split at h
                            · simp at h
                            · rename_i deps2 heq
                              simp only [pure, Except.pure, Except.ok.injEq] at h
                              have hfold : (jobs_list.foldlM (fun deps entry => do
                                  let pr ← parseWorkflowEntry entry
                                  if (deps.map Prod.fst).contains pr.1 then
                                    pure (dictUpdate deps pr.1 pr.2)
                                  else
                                    Except.error (ConfigError.generic
                                      ("Workflow references unknown job: " ++ pr.1)))
                                  (job_names.map (fun j => (j, ([] : List String))))) =
                                  .ok deps2 := heq
                              have hwf := wf_fold_spec jobs_list _ deps2 hfold
                              refine ⟨?_, ?_⟩
                              · rw [← h]
                                rw [hwf.1]
                                exact hinit
                              · intro jl hjl
                                have hje : jl = jobs_list := by
                                  simp [workflowJobsList, hw, hf, hj] at hjl
                                  exact hjl.symm
                                subst hje
                                intro e he2
                                obtain ⟨pr, hpr, hmem⟩ := hwf.2 e he2
                                refine ⟨pr, hpr, ?_⟩
                                rw [hinit] at hmem
                                exact hmem
                      | null => simp only [hj] at h; simp at h
                      | bool b => simp only [hj] at h; simp at h
                      | num n => simp only [hj] at h; simp at h
                      | str sv => simp only [hj] at h; simp at h
                      | map m2 => simp only [hj] at h; simp at h
              | null => simp at h
              | bool b => simp at h
              | num n => simp at h
              | str sv => simp at h
              | list items => simp at h
      | null =>
          simp only [hw, Except.ok.injEq] at h
          refine ⟨by rw [← h]; exact hinit, ?_⟩
          intro jl hjl
          simp [workflowJobsList, hw] at hjl
      | bool b =>
          simp only [hw, Except.ok.injEq] at h
          refine ⟨by rw [← h]; exact hinit, ?_⟩
          intro jl hjl
          simp [workflowJobsList, hw] at hjl
      | num n =>
          simp only [hw, Except.ok.injEq] at h
          refine ⟨by rw [← h]; exact hinit, ?_⟩
          intro jl hjl
          simp [workflowJobsList, hw] at hjl
      | str sv =>
          simp only [hw, Except.ok.injEq] at h
          refine ⟨by rw [← h]; exact hinit, ?_⟩
          intro jl hjl
          simp [workflowJobsList, hw] at hjl
      | list items =>
          simp only [hw, Except.ok.injEq] at h
          refine ⟨by rw [← h]; exact hinit, ?_⟩
          intro jl hjl
          simp [workflowJobsList, hw] at hjl

/-- A successful `load_pipeline_config` decomposed into its stages: the
document is a mapping with a non-empty `jobs` mapping, the jobs parse, the
workflow details extract, and the topological sort succeeds, the record
fields coming from those stages. -/
theorem load_ok_elim (data : Yaml) (default_name : String)
    (cfg : PipelineConfig)
    (h : load_pipeline_config data default_name = .ok cfg) :
    ∃ doc jobs_section jobs wfdeps,
      data = Yaml.map doc ∧
      alistGet? doc "jobs" = some (Yaml.map jobs_section) ∧
      parseJobs jobs_section = .ok jobs ∧
      extract_workflow_details doc (jobs.map Prod.fst) default_name =
        .ok wfdeps ∧
      topological_sort (jobs.map Prod.fst) wfdeps.2 = .ok cfg.job_order ∧
      cfg.jobs = jobs ∧ cfg.dependencies = wfdeps.2 ∧ cfg.name = wfdeps.1 := by
  cases data with
  | map doc =>
      simp only [load_pipeline_config] at h
      cases hjb : alistGet? doc "jobs" with
      | none => rw [hjb] at h; simp at h
      | some v =>
          cases v with
          | map jobs_section =>
              rw [hjb] at h
              by_cases hie : jobs_section.isEmpty = true
              · simp only [hie, if_true] at h; simp at h
              · simp only [hie, Bool.false_eq_true, if_false, bind,
                  Except.bind] at h
                split at h
                · simp at h
                · rename_i jobs heq1
                  split at h
                  · simp at h
                  · rename_i wfdeps heq2
                    obtain ⟨wn, deps⟩ := wfdeps
                    split at h
                    · simp at h
                    · rename_i order heq3
                      simp only [pure, Except.pure, Except.ok.injEq] at h
                      subst h
                      exact ⟨doc, jobs_section, jobs, (wn, deps), rfl, hjb,
                        heq1, heq2, heq3, rfl, rfl, rfl⟩
          | null => rw [hjb] at h; simp at h
          | bool b => rw [hjb] at h; simp at h
          | num n => rw [hjb] at h; simp at h
          | str s => rw [hjb] at h; simp at h
          | list l => rw [hjb] at h; simp at h
  | null => simp [load_pipeline_config] at h
  | bool b => simp [load_pipeline_config] at h
  | num n => simp [load_pipeline_config] at h
  | str s => simp [load_pipeline_config] at h
  | list l => simp [load_pipeline_config] at h

/-- Facts shared by every successfully loaded configuration: distinct job
names, dependency keys equal to the job names, sortedness of `job_order`
against `dependencies`, and `job_order` holding exactly the job names without
duplicates. -/
theorem load_ok_facts (data : Yaml) (default_name : String)
    (cfg : PipelineConfig)
    (h : load_pipeline_config data default_name = .ok cfg) :
    (cfg.jobs.map Prod.fst).Nodup ∧
    cfg.dependencies.map Prod.fst = cfg.jobs.map Prod.fst ∧
    (∀ j ∈ pyDedup (cfg.jobs.map Prod.fst), j ∈ cfg.job_order ∧
      ∀ d ∈ depsGetD cfg.dependencies j,
        cfg.job_order.indexOf d < cfg.job_order.indexOf j) ∧
    (∀ k, k ∈ cfg.job_order ↔ k ∈ cfg.jobs.map Prod.fst) ∧
    cfg.job_order.Nodup := by
  obtain ⟨doc, js, jobs, wfdeps, hdata, hjb, hpj, hex, htopo, hjobs, hdeps,
    hname⟩ := load_ok_elim data default_name cfg h
  have hnd : (jobs.map Prod.fst).Nodup :=
    parseJobs_keys_nodup js [] jobs hpj (by simp)
  have hkeys := (extract_spec doc (jobs.map Prod.fst) default_name wfdeps hex).1
  have hts := topological_sort_spec (jobs.map Prod.fst) wfdeps.2
    cfg.job_order htopo
  rw [hjobs, hdeps]
  exact ⟨hnd, hkeys, hts.1, hts.2.1, hts.2.2⟩

/-- **C1.** For every configuration that loads successfully, the resolved
execution order `job_order` is a topological ordering consistent with all
declared dependency edges: every job with a declared dependency list appears
in `job_order`, and each job in its requires list also appears in
`job_order`, strictly before it. -/
theorem c1_job_order_topological (data : Yaml) (default_name : String)
    (cfg : PipelineConfig)
    (h : load_pipeline_config data default_name = .ok cfg) :
    ∀ p ∈ cfg.dependencies, p.1 ∈ cfg.job_order ∧
      ∀ D ∈ p.2, D ∈ cfg.job_order ∧
        cfg.job_order.indexOf D < cfg.job_order.indexOf p.1 := by
  obtain ⟨hnd, hkeys, hsorted, hiff, hnodup⟩ :=
    load_ok_facts data default_name cfg h
  intro p hp
  have hdnd : (cfg.dependencies.map Prod.fst).Nodup := by
    rw [hkeys]; exact hnd
  have hp1 : p.1 ∈ cfg.jobs.map Prod.fst := by
    rw [← hkeys]; exact List.mem_map_of_mem Prod.fst hp
  have hgd : depsGetD cfg.dependencies p.1 = p.2 := depsGetD_eq hdnd hp
  have hmemJ : p.1 ∈ pyDedup (cfg.jobs.map Prod.fst) :=
    (mem_pyDedup _ _).mpr hp1
  obtain ⟨hJin, hJlt⟩ := hsorted p.1 hmemJ
  refine ⟨hJin, ?_⟩
  intro D hD
  have hDlt : cfg.job_order.indexOf D < cfg.job_order.indexOf p.1 := by
    apply hJlt
    rw [hgd]
    exact hD
  have hJlen : cfg.job_order.indexOf p.1 < cfg.job_order.length :=
    List.indexOf_lt_length.mpr hJin
  exact ⟨List.indexOf_lt_length.mp (lt_trans hDlt hJlen), hDlt⟩

/-- A concrete two-job document: `build`, and `test` requiring `build`. -/
def loadDoc : Yaml := .map [
  ("jobs", .map [
    ("build", .map [
      ("docker", .list [.map [("image", .str "python:3.11")]]),
      ("steps", .list [.str "checkout"])]),
    ("test", .map [
      ("docker", .list [.map [("image", .str "python:3.11")]]),
      ("steps", .list [.str "checkout"])])]),
  ("workflows", .map [
    ("version", .num 2),
    ("main", .map [("jobs", .list [
      .str "build",
      .map [("test", .map [("requires", .list [.str "build"])])]])])])]

/-- What `load_pipeline_config` produces for `loadDoc`. -/
def loadCfg : PipelineConfig :=
  { name := "main",
    jobs := [
      ("build", { name := "build", image := "python:3.11",
                  steps := [{ kind := "checkout", command := none }] }),
      ("test", { name := "test", image := "python:3.11",
                 steps := [{ kind := "checkout", command := none }] })],
    job_order := ["build", "test"],
    dependencies := [("build", []), ("test", ["build"])] }

/-- Witness for C1 at `loadDoc`: `test` requires `build` and `build` precedes
it in the resolved order. -/
theorem c1_job_order_topological_witness :
    "test" ∈ loadCfg.job_order ∧ "build" ∈ loadCfg.job_order ∧
    loadCfg.job_order.indexOf "build" < loadCfg.job_order.indexOf "test" := by
  have h := c1_job_order_topological loadDoc "pipeline" loadCfg rfl
    ("test", ["build"]) (by simp [loadCfg])
  exact ⟨h.1, (h.2 "build" (by simp)).1, (h.2 "build" (by simp)).2⟩

/-- **C10.** For every configuration that loads successfully, `job_order` is
a permutation of the declared job names: every job of the `jobs` section
appears exactly once, whether or not the workflow job list mentions it. -/
theorem c10_job_order_permutation (data : Yaml) (default_name : String)
    (cfg : PipelineConfig)
    (h : load_pipeline_config data default_name = .ok cfg) :
    cfg.job_order.Perm (cfg.jobs.map Prod.fst) := by
  obtain ⟨hnd, hkeys, hsorted, hiff, hnodup⟩ :=
    load_ok_facts data default_name cfg h
  exact (List.perm_ext_iff_of_nodup hnodup hnd).mpr hiff

/-- Witness for C10 at `loadDoc`. -/
theorem c10_job_order_permutation_witness :
    loadCfg.job_order.Perm (loadCfg.jobs.map Prod.fst) :=
  c10_job_order_permutation loadDoc "pipeline" loadCfg rfl

/-- A cycle in the dependency graph: a non-empty job sequence in which each
position's successor (cyclically) is among that position's dependencies. -/
def IsCycle (deps : List (String × List String)) (cyc : List String) : Prop :=
  cyc ≠ [] ∧ ∀ i < cyc.length,
    cyc.getD ((i + 1) % cyc.length) "" ∈ depsGetD deps (cyc.getD i "")

/-- A key with a non-empty dependency lookup is one of the dict's keys. -/
theorem depsGetD_mem_keys {deps : List (String × List String)} {k d : String}
    (hd : d ∈ depsGetD deps k) : k ∈ deps.map Prod.fst := by
  unfold depsGetD at hd
  cases hf : deps.find? (fun e => e.1 == k) with
  | none => rw [hf] at hd; simp at hd
  | some e =>
      have hmem := List.mem_of_find?_eq_some hf
      have hpred := List.find?_some hf
      have he : e.1 = k := by simpa using hpred
      rw [← he]
      exact List.mem_map_of_mem Prod.fst hmem

/-- **C3.** A configuration whose dependency graph has a cycle, or that
references an undeclared job in a workflow job-list entry or in a requires
list, never loads.  Contrapositive form: on every successful load, each
workflow job-list entry parses and names a declared job, every dependency
names a declared job, and the dependency graph admits no cycle. -/
theorem c3_cycle_or_undeclared_never_loads (data : Yaml)
    (default_name : String) (cfg : PipelineConfig)
    (h : load_pipeline_config data default_name = .ok cfg) :
    (∀ jl, workflowJobsList data = some jl → ∀ e ∈ jl,
      ∃ pr, parseWorkflowEntry e = .ok pr ∧ pr.1 ∈ cfg.jobs.map Prod.fst) ∧
    (∀ p ∈ cfg.dependencies, ∀ d ∈ p.2, d ∈ cfg.jobs.map Prod.fst) ∧
    (∀ cyc, ¬ IsCycle cfg.dependencies cyc) := by
  obtain ⟨hnd, hkeys, hsorted, hiff, hnodup⟩ :=
    load_ok_facts data default_name cfg h
  obtain ⟨doc, js, jobs, wfdeps, hdata, hjb, hpj, hex, htopo, hjobs, hdeps,
    hname⟩ := load_ok_elim data default_name cfg h
  refine ⟨?_, ?_, ?_⟩
  · intro jl hjl e he
    rw [hdata] at hjl
    obtain ⟨pr, hpr, hmem⟩ :=
      (extract_spec doc (jobs.map Prod.fst) default_name wfdeps hex).2 jl hjl e he
    rw [hjobs]
    exact ⟨pr, hpr, hmem⟩
  · intro p hp d hd
    have hdnd : (cfg.dependencies.map Prod.fst).Nodup := by
      rw [hkeys]; exact hnd
    have hp1 : p.1 ∈ cfg.jobs.map Prod.fst := by
      rw [← hkeys]; exact List.mem_map_of_mem Prod.fst hp
    have hgd : depsGetD cfg.dependencies p.1 = p.2 := depsGetD_eq hdnd hp
    obtain ⟨hJin, hJlt⟩ := hsorted p.1 ((mem_pyDedup _ _).mpr hp1)
    have hDlt : cfg.job_order.indexOf d < cfg.job_order.indexOf p.1 := by
      apply hJlt
      rw [hgd]
      exact hd
    have hJlen : cfg.job_order.indexOf p.1 < cfg.job_order.length :=
      List.indexOf_lt_length.mpr hJin
    exact (hiff d).mp (List.indexOf_lt_length.mp (lt_trans hDlt hJlen))
  · rintro cyc ⟨hne, hcyc⟩
    have hn0 : 0 < cyc.length := List.length_pos.mpr hne
    have hstep : ∀ i < cyc.length,
        cfg.job_order.indexOf (cyc.getD ((i + 1) % cyc.length) "") <
          cfg.job_order.indexOf (cyc.getD i "") := by
      intro i hi
      have hedge := hcyc i hi
      have hkey : cyc.getD i "" ∈ cfg.dependencies.map Prod.fst :=
        depsGetD_mem_keys hedge
      have hjn : cyc.getD i "" ∈ cfg.jobs.map Prod.fst := by
        rw [← hkeys]; exact hkey
      obtain ⟨_, hlt⟩ := hsorted (cyc.getD i "") ((mem_pyDedup _ _).mpr hjn)
      exact hlt _ hedge
    obtain ⟨m, hm, hmin⟩ := Finset.exists_min_image (Finset.range cyc.length)
      (fun i => cfg.job_order.indexOf (cyc.getD i ""))
      ⟨0, Finset.mem_range.mpr hn0⟩
    have hmlt : m < cyc.length := Finset.mem_range.mp hm
    have hsucc : (m + 1) % cyc.length ∈ Finset.range cyc.length :=
      Finset.mem_range.mpr (Nat.mod_lt _ hn0)
    have hle := hmin _ hsucc
    have hlt := hstep m hmlt
    omega

/-- Witness for C3 at `loadDoc`: the loaded two-job configuration has no
dependency cycle and references only declared jobs. -/
theorem c3_cycle_or_undeclared_never_loads_witness :
    (∀ jl, workflowJobsList loadDoc = some jl → ∀ e ∈ jl,
      ∃ pr, parseWorkflowEntry e = .ok pr ∧
        pr.1 ∈ loadCfg.jobs.map Prod.fst) ∧
    (∀ p ∈ loadCfg.dependencies, ∀ d ∈ p.2,
      d ∈ loadCfg.jobs.map Prod.fst) ∧
    (∀ cyc, ¬ IsCycle loadCfg.dependencies cyc) :=
  c3_cycle_or_undeclared_never_loads loadDoc "pipeline" loadCfg rfl

/-- A one-job document whose workflow lists `a` twice: the first entry
requires the undeclared name `ghost`, the second overwrites that requires
list with the empty one. -/
def ghostDoc : Yaml := .map [
  ("jobs", .map [
    ("a", .map [
      ("docker", .list [.map [("image", .str "i")]]),
      ("steps", .list [.str "checkout"])])]),
  ("workflows", .map [
    ("w", .map [("jobs", .list [
      .map [("a", .map [("requires", .list [.str "ghost"])])],
      .str "a"])])])]

/-- What `load_pipeline_config` produces for `ghostDoc`. -/
def ghostCfg : PipelineConfig :=
  { name := "w",
    jobs := [("a", { name := "a", image := "i",
                     steps := [{ kind := "checkout", command := none }] })],
    job_order := ["a"],
    dependencies := [("a", [])] }

/-- Counterexample to C3 as stated: `ghostDoc`'s workflow job list carries an
entry whose requires list names `ghost`, a job the document never declares,
yet the document loads successfully — the later duplicate entry for `a`
overwrites the offending requires list in the dependencies dict, so the
undeclared reference is discarded rather than rejected. -/
theorem c3_counterexample_overwritten_undeclared_requires :
    workflowJobsList ghostDoc =
      some [.map [("a", .map [("requires", .list [.str "ghost"])])],
            .str "a"] ∧
    parseWorkflowEntry
        (.map [("a", .map [("requires", .list [.str "ghost"])])]) =
      .ok ("a", ["ghost"]) ∧
    "ghost" ∉ ghostCfg.jobs.map Prod.fst ∧
    load_pipeline_config ghostDoc "pipeline" = .ok ghostCfg :=
  ⟨rfl, rfl, by decide, rfl⟩
